import Mathlib

/-!
# Verification of the `evtsjs` event-dispatch library

Shallow embedding of `src/es6/Evts.mjs`: the `Evt` class (ordered priority and
normal handler lists, symbol-based locking, a re-entrancy guard, cancellable
synchronous dispatch) and the `CompoundEvt` subclass (its own shadow key, bound
source events, relay priority handlers).

Modelling conventions:
* JavaScript values that the library inspects are modelled by `JSVal`:
  `null`/`undefined` are conflated into `JSVal.null` (the library only ever
  branches on their falsiness and on `===` comparisons against symbols and
  event references, where the two are observationally interchangeable),
  symbols carry their allocation number, and event references carry a heap id.
* The heap of event objects is a `Machine`: a list of `EvtObj`s addressed by
  id, a fresh-symbol counter (`Symbol()` allocation), a fresh-closure counter
  (each `e => this.#call(e)` relay closure is a new function object), a clock
  for `Date.now()` (returns a positive, strictly increasing timestamp), and two
  ghost observation streams: `log` (the shared log scenario handlers write to)
  and `trace` (one entry per firing record constructed by `Evt.call`); the
  ghost streams are never read by the modelled code.
* Handler bodies are lists of atomic actions (`Act`): write to the shared log
  (optionally reporting a field of the received firing record or the received
  event reference), call `e.cancel()`, run the compound relay body
  `this.call(this.#key, e.caller, e.data, {overrideEvt: e.evt, overrideTime:
  e.time})`, or fire some event.  Handler identity (JS function identity) is
  the `hid` field.
* `Evt.call` recurses through handlers that fire other events, so the
  interpreter takes fuel; the guards of the source make real recursion depth
  finite, and every theorem either supplies enough fuel or is fuel-independent.
-/

namespace Evts

/-- JavaScript values as the library observes them: `null`/`undefined`
(conflated), symbols identified by allocation number, event references
identified by heap id, and arbitrary other values. -/
inductive JSVal where
  | null : JSVal
  | sym (n : Nat) : JSVal
  | evtRef (i : Nat) : JSVal
  | other (n : Nat) : JSVal
deriving DecidableEq, Repr

/-- Entries of the shared observation log written by scenario handlers. -/
inductive Entry where
  | msg (n : Nat) : Entry
  | callerE (v : JSVal) : Entry
  | evtE (i : Nat) : Entry
  | dataE (v : JSVal) : Entry
  | timeE (t : Nat) : Entry
  | selfE (i : Nat) : Entry
deriving DecidableEq, Repr

/-- Atomic actions a handler body may perform.  A handler is invoked as
`handler(instance, this)`; the `log*` actions record the corresponding field of
the received `instance` (or the received event reference, for `logSelf`) to the
shared log, `cancel` calls `instance.cancel()`, `relay cid` is the body of the
compound relay closure `e => this.#call(e)` for compound `cid`, and
`fire tid key` calls `tid.call(key)`. -/
inductive Act where
  | log (n : Nat) : Act
  | logCaller : Act
  | logEvt : Act
  | logData : Act
  | logTime : Act
  | logSelf : Act
  | cancel : Act
  | relay (cid : Nat) : Act
  | fire (tid : Nat) (key : JSVal) : Act
deriving DecidableEq, Repr

/-- A handler: a JS function object, identified by `hid` (reference identity)
with body `acts`. -/
structure HandlerF where
  hid : Nat
  acts : List Act
deriving DecidableEq, Repr

/-- A `CompoundEvt` binding record `{key: evtKey, handler}` stored in
`#evtsData`. -/
structure BindRec where
  key : JSVal
  handler : HandlerF
deriving DecidableEq, Repr

/-- One event object.  Base-class fields (`#name`, `#priorityHandlers`,
`#handlers`, `#key`, `#pending`) plus the `CompoundEvt` fields (`isCompound`
marks instances of the subclass; `ckey` is the subclass's shadow `#key`;
`cevts`/`cdata` are `#evts`/`#evtsData`). -/
structure EvtObj where
  name : String
  priorityHandlers : List HandlerF
  handlers : List HandlerF
  key : Option Nat
  pending : Bool
  isCompound : Bool
  ckey : Option Nat
  cevts : List Nat
  cdata : List BindRec
deriving DecidableEq, Repr

/-- The firing record built by `Evt.call` (`#getInstance`): read-only fields
`caller`, `evt`, `data`, `time` (the `cancel` closure is modelled by the
dispatcher's cancellation flag). -/
structure Inst where
  caller : JSVal
  evt : Nat
  data : JSVal
  time : Nat
deriving DecidableEq, Repr

/-- The `opts` argument of `Evt.call`: absent fields are `none`. -/
structure Opts where
  overrideEvt : Option Nat := none
  overrideTime : Option Nat := none
deriving DecidableEq, Repr

/-- The heap plus ghost observation state. -/
structure Machine where
  evts : List EvtObj
  log : List Entry
  trace : List (Nat × Inst)
  nextSym : Nat
  nextHid : Nat
  clock : Nat
deriving DecidableEq, Repr

/-- The JS value stored in a `#key` field: `null` or a symbol. -/
def keyVal : Option Nat → JSVal
  | none => JSVal.null
  | some n => JSVal.sym n

/-- `validateKey` against a stored key field: `!this.#key || this.#key === key`. -/
def validC (stored : Option Nat) (k : JSVal) : Bool :=
  stored.isNone || decide (keyVal stored = k)

/-- `validateKey` as dynamically dispatched on an object: `CompoundEvt`
overrides it to check the shadow key. -/
def validateKeyO (o : EvtObj) (k : JSVal) : Bool :=
  if o.isCompound then validC o.ckey k else validC o.key k

/-- `evt instanceof Evt`. -/
def isEvtRef : JSVal → Bool
  | JSVal.evtRef _ => true
  | _ => false

/-- Heap read. -/
def Machine.getE (m : Machine) (i : Nat) : Option EvtObj :=
  m.evts.get? i

/-- Heap write. -/
def Machine.setE (m : Machine) (i : Nat) (o : EvtObj) : Machine :=
  { m with evts := m.evts.set i o }

/-- In-place update of one event object. -/
def Machine.mapE (m : Machine) (i : Nat) (f : EvtObj → EvtObj) : Machine :=
  match m.evts.get? i with
  | some o => m.setE i (f o)
  | none => m

/-- Ghost: append one entry to the shared observation log. -/
def Machine.addLog (m : Machine) (e : Entry) : Machine :=
  { m with log := m.log ++ [e] }

/-- The compound's `this.#key` as read by the relay closure at call time. -/
def ckeyOf (m : Machine) (i : Nat) : Option Nat :=
  (m.getE i).bind fun o => o.ckey

/-! ## Handler-list management (`Evt` methods)

Each method is modelled after overload resolution (the source's
argument-count / first-argument-type shifts only rearrange which value lands
in which parameter; theorems are stated over the resolved parameters).  The
source's `typeof handler == "function"` tests always hold here because every
`HandlerF` is a function. -/

/-- `Evt.addPriorityHandler` (lines 109-113): push if the key validates and
the handler is not already present. -/
def addPriorityHandler (o : EvtObj) (key : JSVal) (h : HandlerF) : EvtObj :=
  if validateKeyO o key ∧ h ∉ o.priorityHandlers then
    { o with priorityHandlers := o.priorityHandlers ++ [h] }
  else o

/-- `Evt.addPriorityHandlers` (lines 125-129): one key check, then push each
not-yet-present handler. -/
def addPriorityHandlers (o : EvtObj) (key : JSVal) (hs : List HandlerF) : EvtObj :=
  if validateKeyO o key then
    { o with priorityHandlers :=
        hs.foldl (fun l h => if h ∉ l then l ++ [h] else l) o.priorityHandlers }
  else o

/-- `Evt.removePriorityHandler` (lines 141-145): `splice(indexOf(handler), 1)`
guarded by `includes(handler)`, i.e. erase the first occurrence. -/
def removePriorityHandler (o : EvtObj) (key : JSVal) (h : HandlerF) : EvtObj :=
  if validateKeyO o key ∧ h ∈ o.priorityHandlers then
    { o with priorityHandlers := o.priorityHandlers.erase h }
  else o

/-- `Evt.removePriorityHandlers` (lines 157-161), modelled exactly as written:
the guard is `!this.#priorityHandlers.includes(handler)` (note the negation),
so for a handler that IS present nothing happens, and for a handler that is
NOT present `splice(indexOf(handler), 1)` is `splice(-1, 1)`, which removes
the LAST element of the list. -/
def removePriorityHandlers (o : EvtObj) (key : JSVal) (hs : List HandlerF) : EvtObj :=
  if validateKeyO o key then
    { o with priorityHandlers :=
        hs.foldl (fun l h => if h ∉ l then l.dropLast else l) o.priorityHandlers }
  else o

/-- `Evt.clearPriorityHandlers` (lines 168-171). -/
def clearPriorityHandlers (o : EvtObj) (key : JSVal) : EvtObj :=
  if validateKeyO o key then { o with priorityHandlers := [] } else o

/-- `Evt.addHandler` (lines 178-181). -/
def addHandler (o : EvtObj) (h : HandlerF) : EvtObj :=
  if h ∉ o.handlers then { o with handlers := o.handlers ++ [h] } else o

/-- `Evt.addHandlers` (lines 188-191). -/
def addHandlers (o : EvtObj) (hs : List HandlerF) : EvtObj :=
  hs.foldl addHandler o

/-- `Evt.removeHandler` (lines 198-201). -/
def removeHandler (o : EvtObj) (h : HandlerF) : EvtObj :=
  if h ∈ o.handlers then { o with handlers := o.handlers.erase h } else o

/-- `Evt.removeHandlers` (lines 208-211). -/
def removeHandlers (o : EvtObj) (hs : List HandlerF) : EvtObj :=
  hs.foldl removeHandler o

/-- `Evt.clearHandlers` (lines 217-220). -/
def clearHandlers (o : EvtObj) : EvtObj :=
  { o with handlers := [] }

/-! ## Locking (`Evt.lock`/`Evt.unlock` and the `CompoundEvt` overrides)

The two implementations are textually identical but target different private
fields; `lockE`/`unlockE` dispatch on `isCompound` accordingly.  `Symbol(this)`
is modelled by drawing from the fresh-symbol counter; `lock` returns `null`
when already locked, `unlock` returns `null` on mismatch and the given key on
success. -/

/-- `lock()`: fresh symbol if unlocked, `null` otherwise.  Returns the updated
object, the updated fresh-symbol counter, and the JS return value. -/
def lockE (o : EvtObj) (fresh : Nat) : EvtObj × Nat × JSVal :=
  let cur := if o.isCompound then o.ckey else o.key
  match cur with
  | some _ => (o, fresh, JSVal.null)
  | none =>
      let o' := if o.isCompound then { o with ckey := some fresh }
                else { o with key := some fresh }
      (o', fresh + 1, JSVal.sym fresh)

/-- `unlock(key)`: `if (this.#key !== key) return null; this.#key = null;
return key;`. -/
def unlockE (o : EvtObj) (k : JSVal) : EvtObj × JSVal :=
  if keyVal (if o.isCompound then o.ckey else o.key) ≠ k then (o, JSVal.null)
  else
    let o' := if o.isCompound then { o with ckey := none } else { o with key := none }
    (o', k)

/-! ## The dispatcher (`Evt.call`, lines 257-285) -/

/-- `opts.overrideTime || Date.now()`: the override wins iff it is truthy
(a timestamp of `0` falls through to `Date.now()`, which yields
`clock + 1`). -/
def firedTime (opts : Opts) (clock : Nat) : Nat :=
  match opts.overrideTime with
  | some t => if t ≠ 0 then t else clock + 1
  | none => clock + 1

/-- The clock after building the firing record: `Date.now()` advances the
clock exactly when it is consulted. -/
def clockAfter (opts : Opts) (clock : Nat) : Nat :=
  match opts.overrideTime with
  | some t => if t ≠ 0 then clock else clock + 1
  | none => clock + 1

/-- The firing record `Evt.call` builds on event `i`. -/
def instOf (i : Nat) (caller data : JSVal) (opts : Opts) (clock : Nat) : Inst :=
  { caller := caller, evt := opts.overrideEvt.getD i, data := data,
    time := firedTime opts clock }

/-- The type of `Evt.call` as a machine transformer. -/
abbrev CallFn := Machine → Nat → JSVal → JSVal → JSVal → Opts → Machine × Option Inst

/-- Out-of-fuel stand-in for a nested `call`: behaves like a rejected fire. -/
def noCall : CallFn := fun m _ _ _ _ _ => (m, none)

/-- Run one atomic action of a handler body.  `inst` is the received firing
record, `i` the received event reference, `c` the dispatching invocation's
cancellation flag, `recur` the nested `Evt.call`.  Returns the machine and the
updated flag. -/
def runAct (recur : CallFn) (m : Machine) (a : Act) (inst : Inst) (i : Nat)
    (c : Bool) : Machine × Bool :=
  match a with
  | .log n => (m.addLog (.msg n), c)
  | .logCaller => (m.addLog (.callerE inst.caller), c)
  | .logEvt => (m.addLog (.evtE inst.evt), c)
  | .logData => (m.addLog (.dataE inst.data), c)
  | .logTime => (m.addLog (.timeE inst.time), c)
  | .logSelf => (m.addLog (.selfE i), c)
  | .cancel => (m, true)
  | .relay cid =>
      ((recur m cid (keyVal (ckeyOf m cid)) inst.caller inst.data
          { overrideEvt := some inst.evt, overrideTime := some inst.time }).1, c)
  | .fire tid k => ((recur m tid k JSVal.null JSVal.null {}).1, c)

/-- Run a handler body to completion (a handler's own `cancel` does not stop
its own body, only later handlers). -/
def runActs (recur : CallFn) (m : Machine) (as : List Act) (inst : Inst)
    (i : Nat) (c : Bool) : Machine × Bool :=
  match as with
  | [] => (m, c)
  | a :: t =>
      let r := runAct recur m a inst i c
      runActs recur r.1 t inst i r.2

/-- The priority loop: `handler(instance, this); if (cancelled) break;`. -/
def runPrio (recur : CallFn) (m : Machine) (hs : List HandlerF) (inst : Inst)
    (i : Nat) : Machine × Bool :=
  match hs with
  | [] => (m, false)
  | h :: t =>
      let r := runActs recur m h.acts inst i false
      if r.2 then r else runPrio recur r.1 t inst i

/-- The normal loop: `if (cancelled) break; handler(instance, this);`. -/
def runNorm (recur : CallFn) (m : Machine) (hs : List HandlerF) (inst : Inst)
    (i : Nat) (c : Bool) : Machine :=
  match hs with
  | [] => m
  | h :: t =>
      if c then m
      else
        let r := runActs recur m h.acts inst i c
        runNorm recur r.1 t inst i r.2

/-- The body of `Evt.call` for a given nested-call function: re-entrancy and
key guard, set `#pending`, build the firing record (ghost-traced), run the two
loops, clear `#pending`, return the record. -/
def callBody (recur : CallFn) : CallFn := fun m i key caller data opts =>
  match m.getE i with
  | none => (m, none)
  | some o =>
      if o.pending || !validateKeyO o key then (m, none)
      else
        let inst := instOf i caller data opts m.clock
        let m1 : Machine :=
          { m with evts := m.evts.set i { o with pending := true },
                   clock := clockAfter opts m.clock,
                   trace := m.trace ++ [(i, inst)] }
        let p := runPrio recur m1 o.priorityHandlers inst i
        let m2 := runNorm recur p.1 o.handlers inst i p.2
        (m2.mapE i (fun o2 => { o2 with pending := false }), some inst)

/-- `Evt.call` with fuel bounding the nesting depth of indirect fires. -/
def callE : Nat → CallFn
  | 0 => callBody noCall
  | fuel + 1 => callBody (callE fuel)

/-! ## `CompoundEvt.bind` / `CompoundEvt.unbind` (lines 384-395, 406-417) -/

/-- `CompoundEvt.bind(key, evt, evtKey)`.  The unlocked shorthand shifts
`[evt, evtKey] = [key, evt]` when the compound is unlocked and the first
argument is an event; `key` itself is not reassigned.  Validation: no
self-binding, the argument must be an event, the compound's (shadow) key and
the source's key must validate; an already-bound source is an idempotent
success; otherwise a fresh relay closure is installed as a priority handler on
the source and recorded in `#evts`/`#evtsData`. -/
def bindC (m : Machine) (cid : Nat) (key evt0 evtKey0 : JSVal) :
    Machine × Option Nat :=
  match m.getE cid with
  | none => (m, none)
  | some co =>
      let p : JSVal × JSVal :=
        if co.ckey = none ∧ isEvtRef key then (key, evt0) else (evt0, evtKey0)
      match p.1 with
      | JSVal.evtRef sid =>
          if sid = cid then (m, none)
          else
            match m.getE sid with
            | none => (m, none)
            | some so =>
                if ¬ (validC co.ckey key ∧ validateKeyO so p.2) then (m, none)
                else if sid ∈ co.cevts then (m, some cid)
                else
                  let h : HandlerF := ⟨m.nextHid, [Act.relay cid]⟩
                  let m1 := { m with nextHid := m.nextHid + 1 }
                  let m2 := m1.setE sid (addPriorityHandler so p.2 h)
                  let m3 := m2.mapE cid fun c' =>
                    { c' with cevts := c'.cevts ++ [sid],
                              cdata := c'.cdata ++ [⟨p.2, h⟩] }
                  (m3, some cid)
      | _ => (m, none)

/-- `CompoundEvt.unbind(key, evt)`.  Shorthand shifts `evt = key` when the
compound is unlocked and the first argument is an event.  Fails if the source
is not currently bound or either the compound's key or the recorded source key
fails to validate; on success removes the recorded relay handler from the
source's priority list and splices the records at the source's index. -/
def unbindC (m : Machine) (cid : Nat) (key evt0 : JSVal) : Machine × Option Nat :=
  match m.getE cid with
  | none => (m, none)
  | some co =>
      let evt := if co.ckey = none ∧ isEvtRef key then key else evt0
      match evt with
      | JSVal.evtRef sid =>
          if sid ∉ co.cevts then (m, none)
          else
            let i := co.cevts.indexOf sid
            match co.cdata.get? i, m.getE sid with
            | some rc, some so =>
                if ¬ (validC co.ckey key ∧ validateKeyO so rc.key) then (m, none)
                else
                  let m1 := m.setE sid (removePriorityHandler so rc.key rc.handler)
                  let m2 := m1.mapE cid fun c' =>
                    { c' with cevts := c'.cevts.eraseIdx i,
                              cdata := c'.cdata.eraseIdx i }
                  (m2, some cid)
            | _, _ => (m, none)
      | _ => (m, none)

/-! ## Spec-side description of a dispatch (for the refinement claims)

These definitions follow the WORDS of the spec (§4.1 steps 4-5, §8), not the
code: which handlers run, in which order, and what they observe.  The
refinement theorems compare them with the interpreter above. -/

/-- An action that neither fires another event nor relays: its only effects
are the shared log and the cancellation flag. -/
def pureAct : Act → Bool
  | .relay _ => false
  | .fire _ _ => false
  | _ => true

/-- The log entries one action writes, given the firing record `inst` and the
event reference `i` the handler received as its two arguments. -/
def actLogs (inst : Inst) (i : Nat) : Act → List Entry
  | .log n => [.msg n]
  | .logCaller => [.callerE inst.caller]
  | .logEvt => [.evtE inst.evt]
  | .logData => [.dataE inst.data]
  | .logTime => [.timeE inst.time]
  | .logSelf => [.selfE i]
  | _ => []

/-- The log entries a whole handler body writes. -/
def actsLog (inst : Inst) (i : Nat) : List Act → List Entry
  | [] => []
  | a :: t => actLogs inst i a ++ actsLog inst i t

/-- Whether a handler body calls `cancel()`. -/
def hasCancel : List Act → Bool
  | [] => false
  | Act.cancel :: _ => true
  | _ :: t => hasCancel t

/-- All actions of a body are pure. -/
def pureActs (as : List Act) : Prop := ∀ a ∈ as, pureAct a = true

/-- All handlers of a list have pure bodies. -/
def pureL (hs : List HandlerF) : Prop := ∀ h ∈ hs, pureActs h.acts

instance (as : List Act) : Decidable (pureActs as) := by
  unfold pureActs; infer_instance

instance (hs : List HandlerF) : Decidable (pureL hs) := by
  unfold pureL pureActs; infer_instance

/-- Modelled from the spec (§4.1 step 4): the priority handlers that run are
an insertion-order prefix, up to and including the first cancelling handler
(cancellation is checked AFTER each invocation); the flag reports whether
cancellation occurred. -/
def specPrioRun : List HandlerF → List HandlerF × Bool
  | [] => ([], false)
  | h :: t =>
      if hasCancel h.acts then ([h], true)
      else
        let r := specPrioRun t
        (h :: r.1, r.2)

/-- Modelled from the spec (§4.1 step 5): the normal handlers that run when
the priority phase did not cancel — insertion order, cancellation checked
BEFORE each invocation, so a cancelling normal handler still completes but
stops all later normal handlers. -/
def specNormRun : List HandlerF → List HandlerF
  | [] => []
  | h :: t => if hasCancel h.acts then [h] else h :: specNormRun t

/-- The log written by a sequence of handlers that all run. -/
def handlersLog (inst : Inst) (i : Nat) : List HandlerF → List Entry
  | [] => []
  | h :: t => actsLog inst i h.acts ++ handlersLog inst i t

/-- Modelled from the spec (§4.1 steps 4-5, §8): the complete shared-log
output of one guard-passing fire — all running priority handlers in insertion
order, then, if no priority handler cancelled, all running normal handlers in
insertion order. -/
def specFireLog (inst : Inst) (i : Nat) (ph nh : List HandlerF) : List Entry :=
  let p := specPrioRun ph
  handlersLog inst i p.1 ++ if p.2 then [] else handlersLog inst i (specNormRun nh)

/-! ## Helper lemmas: pure dispatches -/

theorem runActs_pure (recur : CallFn) (as : List Act) :
    ∀ (m : Machine) (inst : Inst) (i : Nat) (c : Bool), pureActs as →
      runActs recur m as inst i c
        = ({ m with log := m.log ++ actsLog inst i as }, c || hasCancel as) := by
  induction as with
  | nil =>
      intro m inst i c _
      simp [runActs, actsLog, hasCancel]
  | cons a t ih =>
      intro m inst i c hp
      have hpa : pureAct a = true := hp a (List.mem_cons_self a t)
      have hpt : pureActs t := fun x hx => hp x (List.mem_cons_of_mem a hx)
      cases a
      case relay cid => exact absurd hpa (by simp [pureAct])
      case fire tid k => exact absurd hpa (by simp [pureAct])
      all_goals
        simp [runActs, runAct, Machine.addLog, ih _ inst i _ hpt, actsLog, actLogs,
          hasCancel, List.append_assoc]

theorem runPrio_pure (recur : CallFn) (hs : List HandlerF) :
    ∀ (m : Machine) (inst : Inst) (i : Nat), pureL hs →
      runPrio recur m hs inst i
        = ({ m with log := m.log ++ handlersLog inst i (specPrioRun hs).1 },
           (specPrioRun hs).2) := by
  induction hs with
  | nil =>
      intro m inst i _
      simp [runPrio, specPrioRun, handlersLog]
  | cons h t ih =>
      intro m inst i hp
      have hph : pureActs h.acts := hp h (List.mem_cons_self h t)
      have hpt : pureL t := fun x hx => hp x (List.mem_cons_of_mem h hx)
      have hr := runActs_pure recur h.acts m inst i false hph
      cases hc : hasCancel h.acts with
      | true =>
          simp [runPrio, hr, hc, specPrioRun, handlersLog]
      | false =>
          simp [runPrio, hr, hc, specPrioRun, handlersLog, ih _ inst i hpt,
            List.append_assoc]

theorem runNorm_cancelled (recur : CallFn) (hs : List HandlerF) (m : Machine)
    (inst : Inst) (i : Nat) : runNorm recur m hs inst i true = m := by
  cases hs <;> simp [runNorm]

theorem runNorm_pure (recur : CallFn) (hs : List HandlerF) :
    ∀ (m : Machine) (inst : Inst) (i : Nat), pureL hs →
      runNorm recur m hs inst i false
        = { m with log := m.log ++ handlersLog inst i (specNormRun hs) } := by
  induction hs with
  | nil =>
      intro m inst i _
      simp [runNorm, specNormRun, handlersLog]
  | cons h t ih =>
      intro m inst i hp
      have hph : pureActs h.acts := hp h (List.mem_cons_self h t)
      have hpt : pureL t := fun x hx => hp x (List.mem_cons_of_mem h hx)
      have hr := runActs_pure recur h.acts m inst i false hph
      cases hc : hasCancel h.acts with
      | true =>
          simp [runNorm, hr, hc, runNorm_cancelled, specNormRun, handlersLog]
      | false =>
          simp [runNorm, hr, hc, specNormRun, handlersLog, ih _ inst i hpt,
            List.append_assoc]

/-! ## Helper lemmas: heap access -/

theorem getE_lt {m : Machine} {i : Nat} {o : EvtObj} (h : m.getE i = some o) :
    i < m.evts.length := by
  have := List.get?_eq_some.mp h
  exact this.choose

theorem getE_setE_self {m : Machine} {i : Nat} (o : EvtObj)
    (h : i < m.evts.length) : (m.setE i o).getE i = some o := by
  simp [Machine.getE, Machine.setE, List.get?_eq_getElem?,
    List.getElem?_set_self, h]

theorem getE_setE_ne {m : Machine} {i j : Nat} (o : EvtObj) (h : i ≠ j) :
    (m.setE i o).getE j = m.getE j := by
  simp [Machine.getE, Machine.setE, List.get?_eq_getElem?, List.getElem?_set_ne h]

theorem setE_evts_length (m : Machine) (i : Nat) (o : EvtObj) :
    (m.setE i o).evts.length = m.evts.length := by
  simp [Machine.setE]

theorem mapE_evts_length (m : Machine) (i : Nat) (f : EvtObj → EvtObj) :
    (m.mapE i f).evts.length = m.evts.length := by
  unfold Machine.mapE
  cases m.evts.get? i <;> simp [Machine.setE]

/-! ## Helper lemmas: the dispatcher preserves the heap size -/

/-- The class of call functions that never change the number of events. -/
def preservesLen (f : CallFn) : Prop :=
  ∀ m i k c d o, ((f m i k c d o).1).evts.length = m.evts.length

theorem noCall_preservesLen : preservesLen noCall := fun _ _ _ _ _ _ => rfl

theorem runAct_evts_length {recur : CallFn} (hr : preservesLen recur)
    (m : Machine) (a : Act) (inst : Inst) (i : Nat) (c : Bool) :
    ((runAct recur m a inst i c).1).evts.length = m.evts.length := by
  cases a <;> simp [runAct, Machine.addLog] <;> exact hr _ _ _ _ _ _

theorem runActs_evts_length {recur : CallFn} (hr : preservesLen recur)
    (as : List Act) : ∀ (m : Machine) (inst : Inst) (i : Nat) (c : Bool),
    ((runActs recur m as inst i c).1).evts.length = m.evts.length := by
  induction as with
  | nil => intro m inst i c; rfl
  | cons a t ih =>
      intro m inst i c
      simp only [runActs]
      rw [ih]
      exact runAct_evts_length hr m a inst i c

theorem runPrio_evts_length {recur : CallFn} (hr : preservesLen recur)
    (hs : List HandlerF) : ∀ (m : Machine) (inst : Inst) (i : Nat),
    ((runPrio recur m hs inst i).1).evts.length = m.evts.length := by
  induction hs with
  | nil => intro m inst i; rfl
  | cons h t ih =>
      intro m inst i
      simp only [runPrio]
      split
      · exact runActs_evts_length hr h.acts m inst i false
      · rw [ih]
        exact runActs_evts_length hr h.acts m inst i false

theorem runNorm_evts_length {recur : CallFn} (hr : preservesLen recur)
    (hs : List HandlerF) : ∀ (m : Machine) (inst : Inst) (i : Nat) (c : Bool),
    ((runNorm recur m hs inst i c)).evts.length = m.evts.length := by
  induction hs with
  | nil => intro m inst i c; rfl
  | cons h t ih =>
      intro m inst i c
      simp only [runNorm]
      split
      · rfl
      · rw [ih]
        exact runActs_evts_length hr h.acts m inst i c

theorem callBody_preservesLen {recur : CallFn} (hr : preservesLen recur) :
    preservesLen (callBody recur) := by
  intro m i k c d opts
  unfold callBody
  cases m.getE i with
  | none => rfl
  | some o =>
      dsimp only
      by_cases hg : (o.pending || !validateKeyO o k) = true
      · rw [if_pos hg]
      · rw [if_neg hg]
        simp only [mapE_evts_length, runNorm_evts_length hr, runPrio_evts_length hr]
        simp [List.length_set]

theorem callE_preservesLen (fuel : Nat) : preservesLen (callE fuel) := by
  induction fuel with
  | zero => exact callBody_preservesLen noCall_preservesLen
  | succ f ih => exact callBody_preservesLen ih

/-! ## Helper lemmas: full characterization of a guard-passing pure fire -/

/-- A guard-passing `call` on an event whose handlers are all pure refines the
spec's dispatch description: the result is the firing record; the final state
re-clears `#pending`, advances the clock iff `Date.now()` was consulted,
ghost-traces exactly one firing, and appends exactly the spec-predicted
handler output to the shared log. -/
theorem callBody_pure (recur : CallFn) (m : Machine) (i : Nat)
    (key caller data : JSVal) (opts : Opts) (o : EvtObj)
    (ho : m.getE i = some o) (hp : o.pending = false)
    (hk : validateKeyO o key = true)
    (hpure : pureL o.priorityHandlers ∧ pureL o.handlers) :
    callBody recur m i key caller data opts
      = ({ m with evts := m.evts.set i { o with pending := false },
                  clock := clockAfter opts m.clock,
                  trace := m.trace ++ [(i, instOf i caller data opts m.clock)],
                  log := m.log ++ specFireLog (instOf i caller data opts m.clock) i
                           o.priorityHandlers o.handlers },
         some (instOf i caller data opts m.clock)) := by
  have hlt : i < m.evts.length := getE_lt ho
  unfold callBody
  rw [ho]
  simp only [hp, hk, Bool.not_true, Bool.or_false, Bool.false_eq_true, if_false]
  set inst := instOf i caller data opts m.clock with hinst
  set m1 : Machine :=
    { m with evts := m.evts.set i { o with pending := true },
             clock := clockAfter opts m.clock,
             trace := m.trace ++ [(i, inst)] } with hm1
  rw [runPrio_pure recur o.priorityHandlers m1 inst i hpure.1]
  cases hc : (specPrioRun o.priorityHandlers).2 with
  | true =>
      rw [runNorm_cancelled]
      unfold Machine.mapE
      have : ({ m1 with log := m1.log ++ handlersLog inst i (specPrioRun o.priorityHandlers).1
                } : Machine).evts.get? i = some { o with pending := true } := by
        simp [hm1, List.get?_eq_getElem?, List.getElem?_set_self hlt]
      rw [this]
      simp [Machine.setE, hm1, List.set_set, specFireLog, hc]
  | false =>
      rw [runNorm_pure recur o.handlers _ inst i hpure.2]
      unfold Machine.mapE
      have : ({ m1 with log := (m1.log ++ handlersLog inst i (specPrioRun o.priorityHandlers).1)
                  ++ handlersLog inst i (specNormRun o.handlers) } : Machine).evts.get? i
            = some { o with pending := true } := by
        simp [hm1, List.get?_eq_getElem?, List.getElem?_set_self hlt]
      rw [this]
      simp [Machine.setE, hm1, List.set_set, specFireLog, hc, List.append_assoc]

/-- `callE` at every fuel agrees with `callBody` of its own nested-call
function. -/
theorem callE_eq_callBody :
    ∀ fuel, callE fuel = callBody (match fuel with | 0 => noCall | f + 1 => callE f)
  | 0 => rfl
  | _ + 1 => rfl

/-! ## Guard behaviour of `Evt.call` -/

theorem mapE_pending_false (m2 : Machine) (i : Nat) (h : i < m2.evts.length) :
    (((m2.mapE i fun o2 => { o2 with pending := false }).getE i).map
        EvtObj.pending) = some false := by
  unfold Machine.mapE
  cases hE : m2.evts.get? i with
  | none =>
      exfalso
      rw [List.get?_eq_none] at hE
      omega
  | some o2 =>
      rw [getE_setE_self _ h]
      rfl

theorem callBody_guard (recur : CallFn) (hr : preservesLen recur) (m : Machine)
    (i : Nat) (key caller data : JSVal) (opts : Opts) (o : EvtObj)
    (ho : m.getE i = some o) :
    ((o.pending = true ∨ validateKeyO o key = false) →
        callBody recur m i key caller data opts = (m, none))
    ∧ (o.pending = false → validateKeyO o key = true →
        (callBody recur m i key caller data opts).2
            = some (instOf i caller data opts m.clock)
          ∧ (((callBody recur m i key caller data opts).1.getE i).map
                EvtObj.pending) = some false)
    ∧ ((callBody recur m i key caller data opts).2 = none
        ↔ (o.pending = true ∨ validateKeyO o key = false)) := by
  have hlt : i < m.evts.length := getE_lt ho
  unfold callBody
  rw [ho]
  dsimp only
  by_cases hg : (o.pending || !validateKeyO o key) = true
  · rw [if_pos hg]
    have hcase : o.pending = true ∨ validateKeyO o key = false := by
      cases hp : o.pending <;> cases hvk : validateKeyO o key <;>
        simp [hp, hvk] at hg ⊢
    refine ⟨fun _ => rfl, ?_, ?_⟩
    · intro hp hk
      rcases hcase with h | h
      · rw [hp] at h; cases h
      · rw [hk] at h; cases h
    · simpa using hcase
  · have hok : o.pending = false ∧ validateKeyO o key = true := by
      cases hp : o.pending <;> cases hvk : validateKeyO o key <;>
        simp [hp, hvk] at hg ⊢
    rw [if_neg hg]
    refine ⟨?_, ?_, ?_⟩
    · rintro (h | h)
      · rw [hok.1] at h; cases h
      · rw [hok.2] at h; cases h
    · intro _ _
      refine ⟨rfl, ?_⟩
      apply mapE_pending_false
      rw [runNorm_evts_length hr, runPrio_evts_length hr]
      simpa [List.length_set] using hlt
    · constructor
      · intro h; cases h
      · rintro (h | h)
        · rw [hok.1] at h; cases h
        · rw [hok.2] at h; cases h

/-! ## Claim theorems -/

/-- C1: a fire of event `i` that passes the entry guard produces exactly the
spec-described dispatch: every priority handler runs in insertion order with
the cancellation flag checked after each invocation, stopping immediately when
set (skipping remaining priority handlers and all normal handlers); then, if
not cancelled, every normal handler runs in insertion order with the flag
checked before each invocation; each handler receives the firing record and
the event reference (the `specFireLog` entries record fields of both received
arguments); exactly one firing is traced and the record is returned.  Stated
for handlers whose bodies do not themselves fire events. -/
theorem c1_dispatch_order (fuel : Nat) (m : Machine) (i : Nat)
    (key caller data : JSVal) (opts : Opts) (o : EvtObj)
    (ho : m.getE i = some o) (hp : o.pending = false)
    (hk : validateKeyO o key = true)
    (hpure : pureL o.priorityHandlers ∧ pureL o.handlers) :
    callE fuel m i key caller data opts
      = ({ m with evts := m.evts.set i { o with pending := false },
                  clock := clockAfter opts m.clock,
                  trace := m.trace ++ [(i, instOf i caller data opts m.clock)],
                  log := m.log ++ specFireLog (instOf i caller data opts m.clock) i
                           o.priorityHandlers o.handlers },
         some (instOf i caller data opts m.clock)) := by
  rw [callE_eq_callBody]
  exact callBody_pure _ m i key caller data opts o ho hp hk hpure

/-- Witness event for C1: two logging priority handlers with a cancelling one
between them, plus a normal handler that must be skipped. -/
def wEvt : EvtObj :=
  ⟨"w", [⟨1, [Act.log 10, Act.logEvt, Act.logSelf]⟩, ⟨2, [Act.log 20, Act.cancel]⟩,
        ⟨3, [Act.log 30]⟩], [⟨4, [Act.log 40]⟩], none, false, false, none, [], []⟩

/-- Witness machine for C1. -/
def wM : Machine := ⟨[wEvt], [], [], 0, 50, 0⟩

theorem c1_witness :
    wM.getE 0 = some wEvt ∧ wEvt.pending = false
      ∧ validateKeyO wEvt JSVal.null = true
      ∧ (pureL wEvt.priorityHandlers ∧ pureL wEvt.handlers)
      ∧ callE 0 wM 0 JSVal.null JSVal.null JSVal.null {}
          = ({ wM with evts := wM.evts.set 0 { wEvt with pending := false },
                       clock := clockAfter {} wM.clock,
                       trace := wM.trace ++ [(0, instOf 0 JSVal.null JSVal.null {} wM.clock)],
                       log := wM.log ++ specFireLog (instOf 0 JSVal.null JSVal.null {} wM.clock)
                                0 wEvt.priorityHandlers wEvt.handlers },
             some (instOf 0 JSVal.null JSVal.null {} wM.clock)) :=
  ⟨rfl, rfl, by decide, by decide,
    c1_dispatch_order 0 wM 0 JSVal.null JSVal.null JSVal.null {} wEvt rfl rfl
      (by decide) (by decide)⟩

/-- C2: `call(key, caller, data, opts)` returns nothing and invokes zero
handlers (the machine is completely unchanged) exactly when the event is
mid-fire or the key fails to validate; in every other case it returns the
firing record — even when a handler cancelled — and the in-progress flag is
false after it returns. -/
theorem c2_call_guard (fuel : Nat) (m : Machine) (i : Nat)
    (key caller data : JSVal) (opts : Opts) (o : EvtObj)
    (ho : m.getE i = some o) :
    ((o.pending = true ∨ validateKeyO o key = false) →
        callE fuel m i key caller data opts = (m, none))
    ∧ (o.pending = false → validateKeyO o key = true →
        (callE fuel m i key caller data opts).2
            = some (instOf i caller data opts m.clock)
          ∧ (((callE fuel m i key caller data opts).1.getE i).map
                EvtObj.pending) = some false)
    ∧ ((callE fuel m i key caller data opts).2 = none
        ↔ (o.pending = true ∨ validateKeyO o key = false)) := by
  cases fuel with
  | zero => exact callBody_guard noCall noCall_preservesLen m i key caller data opts o ho
  | succ f => exact callBody_guard (callE f) (callE_preservesLen f) m i key caller data opts o ho

/-- Witness event for C2: locked with symbol 3, one handler that cancels. -/
def w2Evt : EvtObj :=
  ⟨"w2", [⟨1, [Act.cancel]⟩], [⟨2, [Act.log 9]⟩], some 3, false, false, none, [], []⟩

/-- Witness machine for C2. -/
def w2M : Machine := ⟨[w2Evt], [], [], 4, 0, 0⟩

theorem c2_witness :
    w2M.getE 0 = some w2Evt
      ∧ (w2Evt.pending = true ∨ validateKeyO w2Evt (JSVal.sym 9) = false)
      ∧ callE 1 w2M 0 (JSVal.sym 9) JSVal.null JSVal.null {} = (w2M, none)
      ∧ w2Evt.pending = false ∧ validateKeyO w2Evt (JSVal.sym 3) = true
      ∧ (callE 1 w2M 0 (JSVal.sym 3) JSVal.null JSVal.null {}).2
          = some (instOf 0 JSVal.null JSVal.null {} w2M.clock)
      ∧ (((callE 1 w2M 0 (JSVal.sym 3) JSVal.null JSVal.null {}).1.getE 0).map
            EvtObj.pending) = some false :=
  ⟨rfl, by decide,
    (c2_call_guard 1 w2M 0 (JSVal.sym 9) JSVal.null JSVal.null {} w2Evt rfl).1 (by decide),
    rfl, by decide,
    ((c2_call_guard 1 w2M 0 (JSVal.sym 3) JSVal.null JSVal.null {} w2Evt rfl).2.1
      rfl (by decide)).1,
    ((c2_call_guard 1 w2M 0 (JSVal.sym 3) JSVal.null JSVal.null {} w2Evt rfl).2.1
      rfl (by decide)).2⟩

/-- Event used to exhibit the `removePriorityHandlers` defect: two handlers
in the priority list, unlocked. -/
def rEvt : EvtObj :=
  ⟨"r", [⟨1, []⟩, ⟨2, []⟩], [], none, false, false, none, [], []⟩

/-- C3 (code defect): `removePriorityHandlers` on an unlocked event, asked to
remove a handler that is NOT in the priority list, removes the LAST element of
the list instead of being a no-op; asked to remove a handler that IS present,
it leaves the list unchanged instead of removing it.  (The guard in the source
is `!this.#priorityHandlers.includes(handler)`, inverted with respect to the
singular `removePriorityHandler`, so `indexOf` is always `-1` and
`splice(-1, 1)` drops the last element.) -/
theorem c3_removePriorityHandlers_bug :
    validateKeyO rEvt JSVal.null = true
      ∧ (⟨3, []⟩ : HandlerF) ∉ rEvt.priorityHandlers
      ∧ (removePriorityHandlers rEvt JSVal.null [⟨3, []⟩]).priorityHandlers
          = [⟨1, []⟩]
      ∧ (⟨1, []⟩ : HandlerF) ∈ rEvt.priorityHandlers
      ∧ removePriorityHandlers rEvt JSVal.null [⟨1, []⟩] = rEvt := by
  exact ⟨by decide, by decide, by decide, by decide, by decide⟩

/-- C6: `lock()` with no token set stores and returns a fresh token (distinct
from `null` and from every previously issued symbol); `lock()` with a token
set returns nothing and changes nothing; `unlock(token)` with the exact stored
token clears it and returns the token; `unlock` with any other value returns
nothing and leaves the state unchanged; and the stored token can only be
cleared by presenting exactly the stored key value. -/
theorem c6_lock_unlock (o : EvtObj) (fresh n : Nat) :
    ((if o.isCompound then o.ckey else o.key) = none →
        lockE o fresh
          = ((if o.isCompound then { o with ckey := some fresh }
              else { o with key := some fresh }), fresh + 1, JSVal.sym fresh)
          ∧ JSVal.sym fresh ≠ JSVal.null
          ∧ ∀ k, k < fresh → JSVal.sym fresh ≠ JSVal.sym k)
    ∧ ((if o.isCompound then o.ckey else o.key) = some n →
        lockE o fresh = (o, fresh, JSVal.null))
    ∧ ((if o.isCompound then o.ckey else o.key) = some n →
        unlockE o (JSVal.sym n)
          = ((if o.isCompound then { o with ckey := none }
              else { o with key := none }), JSVal.sym n))
    ∧ (∀ k : JSVal, (if o.isCompound then o.ckey else o.key) = some n →
        k ≠ JSVal.sym n → unlockE o k = (o, JSVal.null))
    ∧ (∀ k : JSVal, (unlockE o k).1 ≠ o →
        k = keyVal (if o.isCompound then o.ckey else o.key)) := by
  refine ⟨?_, ?_, ?_, ?_, ?_⟩
  · intro h
    refine ⟨?_, by simp, ?_⟩
    · unfold lockE
      rw [h]
    · intro k hk
      simp only [ne_eq, JSVal.sym.injEq]
      omega
  · intro h
    unfold lockE
    rw [h]
  · intro h
    unfold unlockE
    rw [h]
    simp [keyVal]
  · intro k h hk
    unfold unlockE
    rw [h]
    rw [if_pos ?_]
    simp only [keyVal, ne_eq]
    exact fun he => hk he.symm
  · intro k h
    unfold unlockE at h
    by_cases he : keyVal (if o.isCompound then o.ckey else o.key) ≠ k
    · rw [if_pos he] at h
      exact absurd rfl h
    · exact (not_ne_iff.mp he).symm

/-- Witness objects for C6: an unlocked plain event and a locked one. -/
def wUnlocked : EvtObj := ⟨"", [], [], none, false, false, none, [], []⟩

/-- Locked witness object for C6 (stored token: symbol 5). -/
def wLocked : EvtObj := ⟨"", [], [], some 5, false, false, none, [], []⟩

theorem c6_witness :
    lockE wUnlocked 7
        = ({ wUnlocked with key := some 7 }, 8, JSVal.sym 7)
      ∧ JSVal.sym 7 ≠ JSVal.null
      ∧ lockE wLocked 7 = (wLocked, 7, JSVal.null)
      ∧ unlockE wLocked (JSVal.sym 5) = ({ wLocked with key := none }, JSVal.sym 5)
      ∧ unlockE wLocked (JSVal.sym 9) = (wLocked, JSVal.null) :=
  ⟨((c6_lock_unlock wUnlocked 7 0).1 rfl).1,
   ((c6_lock_unlock wUnlocked 7 0).1 rfl).2.1,
   (c6_lock_unlock wLocked 7 5).2.1 rfl,
   (c6_lock_unlock wLocked 7 5).2.2.1 rfl,
   (c6_lock_unlock wLocked 7 5).2.2.2.1 (JSVal.sym 9) rfl (by decide)⟩

/-! ## No-duplicate invariant of the handler lists -/

theorem nodup_pushNew {l : List HandlerF} {h : HandlerF} (hl : l.Nodup) :
    (if h ∉ l then l ++ [h] else l).Nodup := by
  split
  · next hm => simp [List.nodup_append, hl, hm]
  · exact hl

theorem nodup_foldl_pushNew (hs : List HandlerF) :
    ∀ l : List HandlerF, l.Nodup →
      (hs.foldl (fun l h => if h ∉ l then l ++ [h] else l) l).Nodup := by
  induction hs with
  | nil => intro l hl; exact hl
  | cons h t ih => intro l hl; exact ih _ (nodup_pushNew hl)

theorem nodup_foldl_dropAbsent (hs : List HandlerF) :
    ∀ l : List HandlerF, l.Nodup →
      (hs.foldl (fun l h => if h ∉ l then l.dropLast else l) l).Nodup := by
  induction hs with
  | nil => intro l hl; exact hl
  | cons h t ih =>
      intro l hl
      refine ih _ ?_
      show (if h ∉ l then l.dropLast else l).Nodup
      split
      · exact (List.dropLast_sublist l).nodup hl
      · exact hl

theorem nodup_foldl_addHandler (hs : List HandlerF) :
    ∀ o : EvtObj, o.handlers.Nodup → (hs.foldl addHandler o).handlers.Nodup := by
  induction hs with
  | nil => intro o ho; exact ho
  | cons h t ih =>
      intro o ho
      refine ih _ ?_
      unfold addHandler
      split
      · next hm => simp [List.nodup_append, ho, hm]
      · exact ho

theorem nodup_foldl_removeHandler (hs : List HandlerF) :
    ∀ o : EvtObj, o.handlers.Nodup → (hs.foldl removeHandler o).handlers.Nodup := by
  induction hs with
  | nil => intro o ho; exact ho
  | cons h t ih =>
      intro o ho
      refine ih _ ?_
      unfold removeHandler
      split
      · exact (List.erase_sublist h o.handlers).nodup ho
      · exact ho

/-- Machine for the final conjunct of C9: the same handler reference added
twice via `addHandler`. -/
def dupM : Machine :=
  ⟨[addHandler (addHandler ⟨"d", [], [], none, false, false, none, [], []⟩
      ⟨7, [Act.log 7]⟩) ⟨7, [Act.log 7]⟩], [], [], 0, 0, 0⟩

/-- C9: every handler-list operation preserves the invariant that a handler
reference appears at most once in the priority list and at most once in the
normal list, the two lists being independent (priority operations leave the
normal list untouched and vice versa); adding the same reference twice leaves
exactly one occurrence, so it is invoked exactly once per fire (final
conjunct: a concrete double-added handler logs exactly once). -/
theorem c9_nodup_invariant (o : EvtObj) (key : JSVal) (h : HandlerF)
    (hs : List HandlerF) :
    (o.priorityHandlers.Nodup →
        (addPriorityHandler o key h).priorityHandlers.Nodup
        ∧ (addPriorityHandlers o key hs).priorityHandlers.Nodup
        ∧ (removePriorityHandler o key h).priorityHandlers.Nodup
        ∧ (removePriorityHandlers o key hs).priorityHandlers.Nodup
        ∧ (clearPriorityHandlers o key).priorityHandlers.Nodup)
    ∧ (o.handlers.Nodup →
        (addHandler o h).handlers.Nodup
        ∧ (addHandlers o hs).handlers.Nodup
        ∧ (removeHandler o h).handlers.Nodup
        ∧ (removeHandlers o hs).handlers.Nodup
        ∧ (clearHandlers o).handlers.Nodup)
    ∧ (addPriorityHandler o key h).handlers = o.handlers
    ∧ (addHandler o h).priorityHandlers = o.priorityHandlers
    ∧ (validateKeyO o key = true → h ∉ o.priorityHandlers →
        (addPriorityHandler (addPriorityHandler o key h) key h).priorityHandlers.count h
          = 1)
    ∧ (h ∉ o.handlers →
        (addHandler (addHandler o h) h).handlers.count h = 1)
    ∧ (callE 0 dupM 0 JSVal.null JSVal.null JSVal.null {}).1.log = [Entry.msg 7] := by
  refine ⟨?_, ?_, ?_, ?_, ?_, ?_, by decide⟩
  · intro hn
    refine ⟨?_, ?_, ?_, ?_, ?_⟩
    · unfold addPriorityHandler
      split
      · next hcond => simp [List.nodup_append, hn, hcond.2]
      · exact hn
    · unfold addPriorityHandlers
      split
      · exact nodup_foldl_pushNew hs o.priorityHandlers hn
      · exact hn
    · unfold removePriorityHandler
      split
      · exact (List.erase_sublist h o.priorityHandlers).nodup hn
      · exact hn
    · unfold removePriorityHandlers
      split
      · exact nodup_foldl_dropAbsent hs o.priorityHandlers hn
      · exact hn
    · unfold clearPriorityHandlers
      split <;> simp [hn]
  · intro hn
    refine ⟨?_, ?_, ?_, ?_, ?_⟩
    · unfold addHandler
      split
      · next hm => simp [List.nodup_append, hn, hm]
      · exact hn
    · exact nodup_foldl_addHandler hs o hn
    · unfold removeHandler
      split
      · exact (List.erase_sublist h o.handlers).nodup hn
      · exact hn
    · exact nodup_foldl_removeHandler hs o hn
    · simp [clearHandlers]
  · unfold addPriorityHandler
    split <;> rfl
  · unfold addHandler
    split <;> rfl
  · intro hk hm
    have h1 : addPriorityHandler o key h
        = { o with priorityHandlers := o.priorityHandlers ++ [h] } := by
      unfold addPriorityHandler
      rw [if_pos ⟨hk, hm⟩]
    have h2 : addPriorityHandler { o with priorityHandlers := o.priorityHandlers ++ [h] }
          key h = { o with priorityHandlers := o.priorityHandlers ++ [h] } := by
      unfold addPriorityHandler
      rw [if_neg]
      rintro ⟨-, habs⟩
      exact habs (by simp)
    rw [h1, h2]
    dsimp only
    rw [List.count_append]
    simp [List.count_eq_zero_of_not_mem hm]
  · intro hm
    have h1 : addHandler o h = { o with handlers := o.handlers ++ [h] } := by
      unfold addHandler
      rw [if_pos hm]
    have h2 : addHandler { o with handlers := o.handlers ++ [h] } h
        = { o with handlers := o.handlers ++ [h] } := by
      unfold addHandler
      rw [if_neg]
      intro habs
      exact habs (by simp)
    rw [h1, h2]
    dsimp only
    rw [List.count_append]
    simp [List.count_eq_zero_of_not_mem hm]

theorem c9_witness :
    ([⟨1, []⟩] : List HandlerF).Nodup
      ∧ (addPriorityHandler ⟨"", [⟨1, []⟩], [], none, false, false, none, [], []⟩
          JSVal.null ⟨2, []⟩).priorityHandlers.Nodup
      ∧ (addPriorityHandler
          (addPriorityHandler ⟨"", [⟨1, []⟩], [], none, false, false, none, [], []⟩
            JSVal.null ⟨2, []⟩) JSVal.null ⟨2, []⟩).priorityHandlers.count ⟨2, []⟩ = 1 :=
  ⟨by decide,
    (((c9_nodup_invariant ⟨"", [⟨1, []⟩], [], none, false, false, none, [], []⟩
        JSVal.null ⟨2, []⟩ []).1 (by decide)).1),
    ((c9_nodup_invariant ⟨"", [⟨1, []⟩], [], none, false, false, none, [], []⟩
        JSVal.null ⟨2, []⟩ []).2.2.2.2.1 (by decide) (by decide))⟩

/-! ## Shape lemmas for `bind`/`unbind` -/

theorem bindC_self (m : Machine) (cid : Nat) (key ek : JSVal) (co : EvtObj)
    (hc : m.getE cid = some co)
    (hns : ¬ (co.ckey = none ∧ isEvtRef key = true)) :
    bindC m cid key (JSVal.evtRef cid) ek = (m, none) := by
  unfold bindC
  rw [hc]
  dsimp only
  rw [if_neg hns]
  dsimp only
  rw [if_pos rfl]

theorem bindC_self_shorthand (m : Machine) (cid : Nat) (e0 ek0 : JSVal)
    (co : EvtObj) (hc : m.getE cid = some co) (hck : co.ckey = none) :
    bindC m cid (JSVal.evtRef cid) e0 ek0 = (m, none) := by
  unfold bindC
  rw [hc]
  dsimp only
  rw [if_pos ⟨hck, rfl⟩]
  dsimp only
  rw [if_pos rfl]

theorem bindC_badKey (m : Machine) (cid sid : Nat) (key ek : JSVal)
    (co so : EvtObj) (hc : m.getE cid = some co) (hs : m.getE sid = some so)
    (hns : ¬ (co.ckey = none ∧ isEvtRef key = true)) (hne : sid ≠ cid)
    (hbad : ¬ (validC co.ckey key = true ∧ validateKeyO so ek = true)) :
    bindC m cid key (JSVal.evtRef sid) ek = (m, none) := by
  unfold bindC
  rw [hc]
  dsimp only
  rw [if_neg hns]
  dsimp only
  rw [if_neg hne, hs]
  dsimp only
  rw [if_pos hbad]

theorem bindC_already (m : Machine) (cid sid : Nat) (key ek : JSVal)
    (co so : EvtObj) (hc : m.getE cid = some co) (hs : m.getE sid = some so)
    (hns : ¬ (co.ckey = none ∧ isEvtRef key = true)) (hne : sid ≠ cid)
    (hv : validC co.ckey key = true ∧ validateKeyO so ek = true)
    (hmem : sid ∈ co.cevts) :
    bindC m cid key (JSVal.evtRef sid) ek = (m, some cid) := by
  unfold bindC
  rw [hc]
  dsimp only
  rw [if_neg hns]
  dsimp only
  rw [if_neg hne, hs]
  dsimp only
  rw [if_neg (not_not_intro hv), if_pos hmem]

theorem bindC_success (m : Machine) (cid sid : Nat) (key ek : JSVal)
    (co so : EvtObj) (hc : m.getE cid = some co) (hs : m.getE sid = some so)
    (hns : ¬ (co.ckey = none ∧ isEvtRef key = true)) (hne : sid ≠ cid)
    (hv : validC co.ckey key = true ∧ validateKeyO so ek = true)
    (hmem : sid ∉ co.cevts)
    (hfresh : (⟨m.nextHid, [Act.relay cid]⟩ : HandlerF) ∉ so.priorityHandlers) :
    bindC m cid key (JSVal.evtRef sid) ek
      = ((({ m with nextHid := m.nextHid + 1 } : Machine).setE sid
            { so with priorityHandlers :=
                so.priorityHandlers ++ [⟨m.nextHid, [Act.relay cid]⟩] }).setE cid
            { co with cevts := co.cevts ++ [sid],
                      cdata := co.cdata ++ [⟨ek, ⟨m.nextHid, [Act.relay cid]⟩⟩] },
         some cid) := by
  have hcltm : cid < m.evts.length := getE_lt hc
  unfold bindC
  rw [hc]
  dsimp only
  rw [if_neg hns]
  dsimp only
  rw [if_neg hne, hs]
  dsimp only
  rw [if_neg (not_not_intro hv), if_neg hmem]
  have haddp : addPriorityHandler so ek ⟨m.nextHid, [Act.relay cid]⟩
      = { so with priorityHandlers :=
            so.priorityHandlers ++ [⟨m.nextHid, [Act.relay cid]⟩] } := by
    unfold addPriorityHandler
    rw [if_pos ⟨hv.2, hfresh⟩]
  rw [haddp]
  unfold Machine.mapE
  have hget : (({ m with nextHid := m.nextHid + 1 } : Machine).setE sid
      { so with priorityHandlers :=
          so.priorityHandlers ++ [⟨m.nextHid, [Act.relay cid]⟩] }).getE cid
      = some co := by
    rw [getE_setE_ne _ hne]
    exact hc
  rw [show (({ m with nextHid := m.nextHid + 1 } : Machine).setE sid
      { so with priorityHandlers :=
          so.priorityHandlers ++ [⟨m.nextHid, [Act.relay cid]⟩] }).evts.get? cid
      = some co from hget]

theorem unbindC_notBound (m : Machine) (cid sid : Nat) (key : JSVal)
    (co : EvtObj) (hc : m.getE cid = some co)
    (hns : ¬ (co.ckey = none ∧ isEvtRef key = true))
    (hnb : sid ∉ co.cevts) :
    unbindC m cid key (JSVal.evtRef sid) = (m, none) := by
  unfold unbindC
  rw [hc]
  dsimp only
  rw [if_neg hns]
  dsimp only
  rw [if_pos hnb]

theorem unbindC_badKey (m : Machine) (cid sid : Nat) (key : JSVal)
    (co so : EvtObj) (rc : BindRec) (hc : m.getE cid = some co)
    (hs : m.getE sid = some so)
    (hns : ¬ (co.ckey = none ∧ isEvtRef key = true))
    (hmem : sid ∈ co.cevts)
    (hrc : co.cdata.get? (co.cevts.indexOf sid) = some rc)
    (hbad : ¬ (validC co.ckey key = true ∧ validateKeyO so rc.key = true)) :
    unbindC m cid key (JSVal.evtRef sid) = (m, none) := by
  unfold unbindC
  rw [hc]
  dsimp only
  rw [if_neg hns]
  dsimp only
  rw [if_neg (not_not_intro hmem), hrc, hs]
  dsimp only
  rw [if_pos hbad]

theorem unbindC_success (m : Machine) (cid sid : Nat) (key : JSVal)
    (co so : EvtObj) (rc : BindRec) (hc : m.getE cid = some co)
    (hs : m.getE sid = some so)
    (hns : ¬ (co.ckey = none ∧ isEvtRef key = true)) (hne : sid ≠ cid)
    (hmem : sid ∈ co.cevts)
    (hrc : co.cdata.get? (co.cevts.indexOf sid) = some rc)
    (hv : validC co.ckey key = true ∧ validateKeyO so rc.key = true) :
    unbindC m cid key (JSVal.evtRef sid)
      = ((m.setE sid (removePriorityHandler so rc.key rc.handler)).setE cid
           { co with cevts := co.cevts.eraseIdx (co.cevts.indexOf sid),
                     cdata := co.cdata.eraseIdx (co.cevts.indexOf sid) },
         some cid) := by
  unfold unbindC
  rw [hc]
  dsimp only
  rw [if_neg hns]
  dsimp only
  rw [if_neg (not_not_intro hmem), hrc, hs]
  dsimp only
  rw [if_neg (not_not_intro hv)]
  unfold Machine.mapE
  have hget : (m.setE sid (removePriorityHandler so rc.key rc.handler)).getE cid
      = some co := by
    rw [getE_setE_ne _ hne]
    exact hc
  rw [show (m.setE sid (removePriorityHandler so rc.key rc.handler)).evts.get? cid
      = some co from hget]

/-- A plain source event used by the concrete binding scenarios. -/
def sEvt : EvtObj := ⟨"evt", [], [], none, false, false, none, [], []⟩

/-- A compound event used by the concrete binding scenarios. -/
def sCmp : EvtObj := ⟨"compound", [], [], none, false, true, none, [], []⟩

/-- Two-event machine: source at id 0, compound at id 1. -/
def bBase : Machine := ⟨[sEvt, sCmp], [], [], 0, 100, 0⟩

/-- `bBase` after `compound.bind(evt)` (unlocked shorthand). -/
def bBound : Machine := (bindC bBase 1 (JSVal.evtRef 0) JSVal.null JSVal.null).1

/-- C7: `bind` returns nothing and installs no handler when the source is the
compound itself (both calling conventions) or when either key fails to
validate; an already-bound source is an idempotent success returning the
compound with the machine unchanged (so firing the source once still fires the
compound exactly once — final concrete conjunct); otherwise exactly one fresh
relay priority handler is installed on the source and recorded, together with
the source and the key used, and the compound is returned. -/
theorem c7_bind_validation (m : Machine) (cid sid : Nat) (key ek e0 ek0 : JSVal)
    (co so : EvtObj) (hc : m.getE cid = some co) (hs : m.getE sid = some so)
    (hkey : isEvtRef key = false) :
    (bindC m cid key (JSVal.evtRef cid) ek = (m, none))
    ∧ (co.ckey = none → bindC m cid (JSVal.evtRef cid) e0 ek0 = (m, none))
    ∧ (sid ≠ cid → ¬ (validC co.ckey key = true ∧ validateKeyO so ek = true) →
        bindC m cid key (JSVal.evtRef sid) ek = (m, none))
    ∧ (sid ≠ cid → validC co.ckey key = true → validateKeyO so ek = true →
        sid ∈ co.cevts →
        bindC m cid key (JSVal.evtRef sid) ek = (m, some cid))
    ∧ (sid ≠ cid → validC co.ckey key = true → validateKeyO so ek = true →
        sid ∉ co.cevts →
        (⟨m.nextHid, [Act.relay cid]⟩ : HandlerF) ∉ so.priorityHandlers →
        (bindC m cid key (JSVal.evtRef sid) ek).2 = some cid
        ∧ (bindC m cid key (JSVal.evtRef sid) ek).1.getE sid
            = some ({ so with priorityHandlers :=
                so.priorityHandlers ++ [⟨m.nextHid, [Act.relay cid]⟩] })
        ∧ (bindC m cid key (JSVal.evtRef sid) ek).1.getE cid
            = some ({ co with
                cevts := co.cevts ++ [sid],
                cdata := co.cdata ++ [⟨ek, ⟨m.nextHid, [Act.relay cid]⟩⟩] }))
    ∧ (bindC bBound 1 (JSVal.evtRef 0) JSVal.null JSVal.null = (bBound, some 1)
        ∧ ((callE 1 bBound 0 JSVal.null JSVal.null JSVal.null {}).1.trace.countP
            (fun e => decide (e.1 = 1))) = 1) := by
  have hns : ¬ (co.ckey = none ∧ isEvtRef key = true) := by
    rintro ⟨-, habs⟩
    rw [hkey] at habs
    cases habs
  refine ⟨bindC_self m cid key ek co hc hns, ?_, ?_, ?_, ?_, by decide, by decide⟩
  · intro hck
    exact bindC_self_shorthand m cid e0 ek0 co hc hck
  · intro hne hbad
    exact bindC_badKey m cid sid key ek co so hc hs hns hne hbad
  · intro hne hv1 hv2 hmem
    exact bindC_already m cid sid key ek co so hc hs hns hne ⟨hv1, hv2⟩ hmem
  · intro hne hv1 hv2 hmem hfresh
    rw [bindC_success m cid sid key ek co so hc hs hns hne ⟨hv1, hv2⟩ hmem hfresh]
    have hslt : sid < m.evts.length := getE_lt hs
    have hclt : cid < m.evts.length := getE_lt hc
    refine ⟨rfl, ?_, ?_⟩
    · rw [getE_setE_ne _ (Ne.symm hne), getE_setE_self]
      exact hslt
    · rw [getE_setE_self]
      rw [setE_evts_length]
      exact hclt

theorem c7_witness :
    bBase.getE 1 = some sCmp ∧ bBase.getE 0 = some sEvt
      ∧ isEvtRef JSVal.null = false
      ∧ bindC bBase 1 JSVal.null (JSVal.evtRef 1) JSVal.null = (bBase, none)
      ∧ (bindC bBase 1 JSVal.null (JSVal.evtRef 0) JSVal.null).2 = some 1 :=
  ⟨rfl, rfl, rfl,
    (c7_bind_validation bBase 1 0 JSVal.null JSVal.null JSVal.null JSVal.null
      sCmp sEvt rfl rfl rfl).1,
    ((c7_bind_validation bBase 1 0 JSVal.null JSVal.null JSVal.null JSVal.null
      sCmp sEvt rfl rfl rfl).2.2.2.2.1 (by decide) (by decide) (by decide)
      (by decide) (by decide)).1⟩

/-- Binding a fresh source and then unbinding it restores the source object
and the compound object exactly (the explicit final machine below rewrites,
per heap slot, to the original objects). -/
theorem roundtrip_core (m : Machine) (cid sid : Nat) (key ek key2 : JSVal)
    (co so : EvtObj)
    (hc : m.getE cid = some co) (hs : m.getE sid = some so)
    (hkey : isEvtRef key = false) (hkey2 : isEvtRef key2 = false)
    (hne : sid ≠ cid) (hnb : sid ∉ co.cevts)
    (halign : co.cevts.length = co.cdata.length)
    (hv1 : validC co.ckey key = true) (hv2 : validateKeyO so ek = true)
    (hv3 : validC co.ckey key2 = true)
    (hfresh : (⟨m.nextHid, [Act.relay cid]⟩ : HandlerF) ∉ so.priorityHandlers) :
    unbindC (bindC m cid key (JSVal.evtRef sid) ek).1 cid key2 (JSVal.evtRef sid)
      = ((((({ m with nextHid := m.nextHid + 1 } : Machine).setE sid
              ({ so with priorityHandlers :=
                  so.priorityHandlers ++ [⟨m.nextHid, [Act.relay cid]⟩] })).setE cid
              ({ co with
                  cevts := co.cevts ++ [sid],
                  cdata := co.cdata ++ [⟨ek, ⟨m.nextHid, [Act.relay cid]⟩⟩] })).setE sid
              so).setE cid co,
         some cid) := by
  have hns : ¬ (co.ckey = none ∧ isEvtRef key = true) := by
    rintro ⟨-, habs⟩
    rw [hkey] at habs
    cases habs
  have hslt : sid < m.evts.length := getE_lt hs
  have hclt : cid < m.evts.length := getE_lt hc
  rw [bindC_success m cid sid key ek co so hc hs hns hne ⟨hv1, hv2⟩ hnb hfresh]
  set hstar : HandlerF := ⟨m.nextHid, [Act.relay cid]⟩ with hhstar
  set so1 : EvtObj :=
    { so with priorityHandlers := so.priorityHandlers ++ [hstar] } with hso1
  set co1 : EvtObj :=
    { co with cevts := co.cevts ++ [sid],
              cdata := co.cdata ++ [⟨ek, hstar⟩] } with hco1
  set A : Machine := { m with nextHid := m.nextHid + 1 } with hA
  have hc1 : ((A.setE sid so1).setE cid co1).getE cid = some co1 := by
    apply getE_setE_self
    rw [setE_evts_length]
    exact hclt
  have hs1 : ((A.setE sid so1).setE cid co1).getE sid = some so1 := by
    rw [getE_setE_ne _ (Ne.symm hne)]
    exact getE_setE_self _ hslt
  have hns2 : ¬ (co1.ckey = none ∧ isEvtRef key2 = true) := by
    rintro ⟨-, habs⟩
    rw [hkey2] at habs
    cases habs
  have hmem1 : sid ∈ co1.cevts := by
    rw [hco1]
    exact List.mem_append_right _ (List.mem_singleton_self sid)
  have hidx : co1.cevts.indexOf sid = co.cevts.length := by
    show (co.cevts ++ [sid]).indexOf sid = co.cevts.length
    rw [List.indexOf_append_of_not_mem hnb, List.indexOf_cons_self]
    omega
  have hrc1 : co1.cdata.get? (co1.cevts.indexOf sid) = some ⟨ek, hstar⟩ := by
    rw [hidx]
    show (co.cdata ++ [(⟨ek, hstar⟩ : BindRec)]).get? co.cevts.length
        = some ⟨ek, hstar⟩
    rw [halign, List.get?_eq_getElem?]
    exact List.getElem?_concat_length co.cdata ⟨ek, hstar⟩
  have hrm : removePriorityHandler so1 ek hstar = so := by
    unfold removePriorityHandler
    rw [if_pos ⟨hv2, List.mem_append_right _ (List.mem_singleton_self hstar)⟩]
    show ({ so1 with priorityHandlers := so1.priorityHandlers.erase hstar } : EvtObj) = so
    have : so1.priorityHandlers.erase hstar = so.priorityHandlers := by
      show (so.priorityHandlers ++ [hstar]).erase hstar = so.priorityHandlers
      rw [List.erase_append_right _ hfresh, List.erase_cons_head, List.append_nil]
    rw [this]
  have hco : ({ co1 with
      cevts := co1.cevts.eraseIdx (co1.cevts.indexOf sid),
      cdata := co1.cdata.eraseIdx (co1.cevts.indexOf sid) } : EvtObj) = co := by
    rw [hidx]
    have h1 : co1.cevts.eraseIdx co.cevts.length = co.cevts := by
      show (co.cevts ++ [sid]).eraseIdx co.cevts.length = co.cevts
      rw [List.eraseIdx_append_of_length_le (Nat.le_refl _), Nat.sub_self]
      simp [List.eraseIdx]
    have h2 : co1.cdata.eraseIdx co.cevts.length = co.cdata := by
      show (co.cdata ++ [(⟨ek, hstar⟩ : BindRec)]).eraseIdx co.cevts.length = co.cdata
      rw [halign, List.eraseIdx_append_of_length_le (Nat.le_refl _), Nat.sub_self]
      simp [List.eraseIdx]
    rw [h1, h2]
  rw [unbindC_success ((A.setE sid so1).setE cid co1) cid sid key2 co1 so1
      ⟨ek, hstar⟩ hc1 hs1 hns2 hne hmem1 hrc1 ⟨hv3, hv2⟩]
  rw [hrm, hco]

/-- C8: `unbind` fails (returns nothing, state unchanged) when the source is
not currently bound or when the compound's key or the originally recorded
source key fails to validate; on success it removes exactly the recorded
relay handler from the source's priority list, splices the binding records at
the source's index, and returns the compound.  After a fresh bind, unbinding
restores the source's priority list and the compound's records exactly
(so the priority-list length returns to its pre-bind value), and a subsequent
fire of the source adds no firing of the compound to the trace. -/
theorem c8_unbind_removes_relay (m : Machine) (cid sid : Nat)
    (key ek key2 fkey caller data : JSVal) (opts : Opts) (fuel : Nat)
    (co so : EvtObj) (rc : BindRec)
    (hc : m.getE cid = some co) (hs : m.getE sid = some so)
    (hkey : isEvtRef key = false) (hkey2 : isEvtRef key2 = false)
    (hne : sid ≠ cid) :
    (sid ∉ co.cevts → unbindC m cid key (JSVal.evtRef sid) = (m, none))
    ∧ (sid ∈ co.cevts → co.cdata.get? (co.cevts.indexOf sid) = some rc →
        ¬ (validC co.ckey key = true ∧ validateKeyO so rc.key = true) →
        unbindC m cid key (JSVal.evtRef sid) = (m, none))
    ∧ (sid ∈ co.cevts → co.cdata.get? (co.cevts.indexOf sid) = some rc →
        validC co.ckey key = true → validateKeyO so rc.key = true →
        (unbindC m cid key (JSVal.evtRef sid)).2 = some cid
        ∧ (unbindC m cid key (JSVal.evtRef sid)).1.getE sid
            = some (removePriorityHandler so rc.key rc.handler)
        ∧ (unbindC m cid key (JSVal.evtRef sid)).1.getE cid
            = some ({ co with
                cevts := co.cevts.eraseIdx (co.cevts.indexOf sid),
                cdata := co.cdata.eraseIdx (co.cevts.indexOf sid) }))
    ∧ (sid ∉ co.cevts → co.cevts.length = co.cdata.length →
        validC co.ckey key = true → validateKeyO so ek = true →
        validC co.ckey key2 = true →
        (⟨m.nextHid, [Act.relay cid]⟩ : HandlerF) ∉ so.priorityHandlers →
        (unbindC (bindC m cid key (JSVal.evtRef sid) ek).1 cid key2
            (JSVal.evtRef sid)).2 = some cid
        ∧ (unbindC (bindC m cid key (JSVal.evtRef sid) ek).1 cid key2
            (JSVal.evtRef sid)).1.getE sid = some so
        ∧ (unbindC (bindC m cid key (JSVal.evtRef sid) ek).1 cid key2
            (JSVal.evtRef sid)).1.getE cid = some co
        ∧ (unbindC (bindC m cid key (JSVal.evtRef sid) ek).1 cid key2
            (JSVal.evtRef sid)).1.trace = m.trace
        ∧ (so.pending = false → validateKeyO so fkey = true →
            pureL so.priorityHandlers → pureL so.handlers →
            ((callE fuel (unbindC (bindC m cid key (JSVal.evtRef sid) ek).1 cid key2
                  (JSVal.evtRef sid)).1 sid fkey caller data opts).1.trace.countP
                (fun e => decide (e.1 = cid)))
              = m.trace.countP (fun e => decide (e.1 = cid)))) := by
  have hns : ¬ (co.ckey = none ∧ isEvtRef key = true) := by
    rintro ⟨-, habs⟩
    rw [hkey] at habs
    cases habs
  have hslt : sid < m.evts.length := getE_lt hs
  have hclt : cid < m.evts.length := getE_lt hc
  refine ⟨?_, ?_, ?_, ?_⟩
  · intro hnb
    exact unbindC_notBound m cid sid key co hc hns hnb
  · intro hmem hrc hbad
    exact unbindC_badKey m cid sid key co so rc hc hs hns hmem hrc hbad
  · intro hmem hrc hv1 hv2
    rw [unbindC_success m cid sid key co so rc hc hs hns hne hmem hrc ⟨hv1, hv2⟩]
    refine ⟨rfl, ?_, ?_⟩
    · rw [getE_setE_ne _ (Ne.symm hne)]
      exact getE_setE_self _ hslt
    · apply getE_setE_self
      rw [setE_evts_length]
      exact hclt
  · intro hnb halign hv1 hv2 hv3 hfresh
    rw [roundtrip_core m cid sid key ek key2 co so hc hs hkey hkey2 hne hnb
        halign hv1 hv2 hv3 hfresh]
    have hgs : ((((({ m with nextHid := m.nextHid + 1 } : Machine).setE sid
        ({ so with priorityHandlers :=
            so.priorityHandlers ++ [⟨m.nextHid, [Act.relay cid]⟩] })).setE cid
        ({ co with
            cevts := co.cevts ++ [sid],
            cdata := co.cdata ++ [⟨ek, ⟨m.nextHid, [Act.relay cid]⟩⟩] })).setE sid
        so).setE cid co).getE sid = some so := by
      rw [getE_setE_ne _ (Ne.symm hne)]
      apply getE_setE_self
      simp [setE_evts_length]
      exact hslt
    refine ⟨rfl, hgs, ?_, rfl, ?_⟩
    · apply getE_setE_self
      simp [setE_evts_length]
      exact hclt
    · intro hpend hfk hpure1 hpure2
      rw [callE_eq_callBody]
      rw [callBody_pure _ _ sid fkey caller data opts so hgs hpend hfk ⟨hpure1, hpure2⟩]
      simp only [List.countP_append]
      have : List.countP (fun e => decide (e.1 = cid))
          [(sid, instOf sid caller data opts
            ((((({ m with nextHid := m.nextHid + 1 } : Machine).setE sid
              ({ so with priorityHandlers :=
                  so.priorityHandlers ++ [⟨m.nextHid, [Act.relay cid]⟩] })).setE cid
              ({ co with
                  cevts := co.cevts ++ [sid],
                  cdata := co.cdata ++ [⟨ek, ⟨m.nextHid, [Act.relay cid]⟩⟩] })).setE sid
              so).setE cid co).clock)] = 0 := by
        simp [List.countP_cons, hne]
      rw [this]
      rfl

theorem c8_witness :
    (0 : Nat) ∉ sCmp.cevts
      ∧ unbindC bBase 1 JSVal.null (JSVal.evtRef 0) = (bBase, none)
      ∧ (unbindC (bindC bBase 1 JSVal.null (JSVal.evtRef 0) JSVal.null).1 1
          JSVal.null (JSVal.evtRef 0)).2 = some 1
      ∧ (unbindC (bindC bBase 1 JSVal.null (JSVal.evtRef 0) JSVal.null).1 1
          JSVal.null (JSVal.evtRef 0)).1.getE 0 = some sEvt
      ∧ ((callE 1 (unbindC (bindC bBase 1 JSVal.null (JSVal.evtRef 0) JSVal.null).1
            1 JSVal.null (JSVal.evtRef 0)).1 0 JSVal.null JSVal.null JSVal.null
            {}).1.trace.countP (fun e => decide (e.1 = 1)))
          = bBase.trace.countP (fun e => decide (e.1 = 1)) :=
  have h := c8_unbind_removes_relay bBase 1 0 JSVal.null JSVal.null JSVal.null
    JSVal.null JSVal.null JSVal.null {} 1 sCmp sEvt ⟨JSVal.null, ⟨0, []⟩⟩ rfl rfl
    rfl rfl (by decide)
  ⟨by decide, h.1 (by decide),
   (h.2.2.2 (by decide) (by decide) (by decide) (by decide) (by decide)
     (by decide)).1,
   (h.2.2.2 (by decide) (by decide) (by decide) (by decide) (by decide)
     (by decide)).2.1,
   (h.2.2.2 (by decide) (by decide) (by decide) (by decide) (by decide)
     (by decide)).2.2.2.2 rfl (by decide) (by decide) (by decide)⟩

/-! ## Alignment of the compound's two bookkeeping lists (C10) -/

/-- The `CompoundEvt` bookkeeping invariant: `#evts` and `#evtsData` have the
same length (index-aligned) and `#evts` holds no duplicate source. -/
def alignedC (o : EvtObj) : Prop :=
  o.cevts.length = o.cdata.length ∧ o.cevts.Nodup

/-- The compound object after any successful fresh bind: both lists extended
in lockstep with the source and the record installed for it (no freshness
assumption on the relay closure is needed for the compound's own state). -/
theorem bindC_cid_shape (m : Machine) (cid sid : Nat) (key ek : JSVal)
    (co so : EvtObj) (hc : m.getE cid = some co) (hs : m.getE sid = some so)
    (hns : ¬ (co.ckey = none ∧ isEvtRef key = true)) (hne : sid ≠ cid)
    (hv : validC co.ckey key = true ∧ validateKeyO so ek = true)
    (hmem : sid ∉ co.cevts) :
    (bindC m cid key (JSVal.evtRef sid) ek).1.getE cid
      = some ({ co with
          cevts := co.cevts ++ [sid],
          cdata := co.cdata ++ [⟨ek, ⟨m.nextHid, [Act.relay cid]⟩⟩] }) := by
  have hclt : cid < m.evts.length := getE_lt hc
  unfold bindC
  rw [hc]
  dsimp only
  rw [if_neg hns]
  dsimp only
  rw [if_neg hne, hs]
  dsimp only
  rw [if_neg (not_not_intro hv), if_neg hmem]
  unfold Machine.mapE
  have hget : (({ m with nextHid := m.nextHid + 1 } : Machine).setE sid
      (addPriorityHandler so ek ⟨m.nextHid, [Act.relay cid]⟩)).getE cid
      = some co := by
    rw [getE_setE_ne _ hne]
    exact hc
  rw [show (({ m with nextHid := m.nextHid + 1 } : Machine).setE sid
      (addPriorityHandler so ek ⟨m.nextHid, [Act.relay cid]⟩)).evts.get? cid
      = some co from hget]
  dsimp only
  apply getE_setE_self
  rw [setE_evts_length]
  exact hclt

/-- `unbind` is a no-op when the aligned record at the source's index is
missing (unreachable under the invariant). -/
theorem unbindC_noRc (m : Machine) (cid sid : Nat) (key : JSVal)
    (co : EvtObj) (hc : m.getE cid = some co)
    (hns : ¬ (co.ckey = none ∧ isEvtRef key = true))
    (hmem : sid ∈ co.cevts)
    (hrc : co.cdata.get? (co.cevts.indexOf sid) = none) :
    unbindC m cid key (JSVal.evtRef sid) = (m, none) := by
  unfold unbindC
  rw [hc]
  dsimp only
  rw [if_neg hns]
  dsimp only
  rw [if_neg (not_not_intro hmem), hrc]

/-- C10: `bind` and `unbind` preserve the invariant that the bound-sources
list and the binding-records list are index-aligned (equal length, no
duplicate source); a successful fresh bind appends the source and exactly the
record installed for it at the same new index, and a successful unbind erases
both lists at exactly the source's index while removing the recorded handler
with the recorded key from that source. -/
theorem c10_alignment (m : Machine) (cid sid : Nat) (key ek : JSVal)
    (co so : EvtObj) (hc : m.getE cid = some co) (hs : m.getE sid = some so)
    (hkey : isEvtRef key = false) (hne : sid ≠ cid) :
    (alignedC co → ∀ co',
        (bindC m cid key (JSVal.evtRef sid) ek).1.getE cid = some co' →
        alignedC co')
    ∧ (alignedC co → ∀ co',
        (unbindC m cid key (JSVal.evtRef sid)).1.getE cid = some co' →
        alignedC co')
    ∧ (validC co.ckey key = true → validateKeyO so ek = true →
        sid ∉ co.cevts →
        (bindC m cid key (JSVal.evtRef sid) ek).1.getE cid
          = some ({ co with
              cevts := co.cevts ++ [sid],
              cdata := co.cdata ++ [⟨ek, ⟨m.nextHid, [Act.relay cid]⟩⟩] }))
    ∧ (∀ rc, sid ∈ co.cevts →
        co.cdata.get? (co.cevts.indexOf sid) = some rc →
        validC co.ckey key = true → validateKeyO so rc.key = true →
        (unbindC m cid key (JSVal.evtRef sid)).1.getE cid
            = some ({ co with
                cevts := co.cevts.eraseIdx (co.cevts.indexOf sid),
                cdata := co.cdata.eraseIdx (co.cevts.indexOf sid) })
          ∧ (unbindC m cid key (JSVal.evtRef sid)).1.getE sid
              = some (removePriorityHandler so rc.key rc.handler)) := by
  have hns : ¬ (co.ckey = none ∧ isEvtRef key = true) := by
    rintro ⟨-, habs⟩
    rw [hkey] at habs
    cases habs
  have hslt : sid < m.evts.length := getE_lt hs
  have hclt : cid < m.evts.length := getE_lt hc
  refine ⟨?_, ?_, ?_, ?_⟩
  · intro hal co' hget
    by_cases hv : validC co.ckey key = true ∧ validateKeyO so ek = true
    · by_cases hmem : sid ∈ co.cevts
      · rw [bindC_already m cid sid key ek co so hc hs hns hne hv hmem] at hget
        rw [hc] at hget
        cases hget
        exact hal
      · rw [bindC_cid_shape m cid sid key ek co so hc hs hns hne hv hmem] at hget
        cases hget
        constructor
        · simp [hal.1]
        · simp [List.nodup_append, hal.2, hmem]
    · rw [bindC_badKey m cid sid key ek co so hc hs hns hne hv] at hget
      rw [hc] at hget
      cases hget
      exact hal
  · intro hal co' hget
    by_cases hmem : sid ∈ co.cevts
    · cases hrc : co.cdata.get? (co.cevts.indexOf sid) with
      | none =>
          rw [unbindC_noRc m cid sid key co hc hns hmem hrc] at hget
          rw [hc] at hget
          cases hget
          exact hal
      | some rc =>
          by_cases hv : validC co.ckey key = true ∧ validateKeyO so rc.key = true
          · rw [unbindC_success m cid sid key co so rc hc hs hns hne hmem hrc hv]
              at hget
            rw [getE_setE_self _ (by rw [setE_evts_length]; exact hclt)] at hget
            cases hget
            have hidxlt : co.cevts.indexOf sid < co.cevts.length :=
              List.indexOf_lt_length.mpr hmem
            constructor
            · show (co.cevts.eraseIdx _).length = (co.cdata.eraseIdx _).length
              rw [List.length_eraseIdx, List.length_eraseIdx]
              rw [if_pos hidxlt, if_pos (by rw [← hal.1]; exact hidxlt), hal.1]
            · exact (List.eraseIdx_sublist _ _).nodup hal.2
          · rw [unbindC_badKey m cid sid key co so rc hc hs hns hmem hrc hv] at hget
            rw [hc] at hget
            cases hget
            exact hal
    · rw [unbindC_notBound m cid sid key co hc hns hmem] at hget
      rw [hc] at hget
      cases hget
      exact hal
  · intro hv1 hv2 hmem
    exact bindC_cid_shape m cid sid key ek co so hc hs hns hne ⟨hv1, hv2⟩ hmem
  · intro rc hmem hrc hv1 hv2
    rw [unbindC_success m cid sid key co so rc hc hs hns hne hmem hrc ⟨hv1, hv2⟩]
    constructor
    · apply getE_setE_self
      rw [setE_evts_length]
      exact hclt
    · rw [getE_setE_ne _ (Ne.symm hne)]
      exact getE_setE_self _ hslt

theorem c10_witness :
    alignedC sCmp
      ∧ (∀ co', (bindC bBase 1 JSVal.null (JSVal.evtRef 0) JSVal.null).1.getE 1
          = some co' → alignedC co')
      ∧ (bindC bBase 1 JSVal.null (JSVal.evtRef 0) JSVal.null).1.getE 1
          = some ({ sCmp with
              cevts := sCmp.cevts ++ [0],
              cdata := sCmp.cdata ++ [⟨JSVal.null, ⟨bBase.nextHid, [Act.relay 1]⟩⟩] }) :=
  have h := c10_alignment bBase 1 0 JSVal.null JSVal.null sCmp sEvt rfl rfl rfl
    (by decide)
  ⟨⟨rfl, List.nodup_nil⟩, h.1 ⟨rfl, List.nodup_nil⟩,
   h.2.2.1 (by decide) (by decide) (by decide)⟩

/-! ## Relay firing (C4, C5) -/

theorem validC_keyVal (s : Option Nat) : validC s (keyVal s) = true := by
  cases s <;> simp [validC, keyVal]

theorem firedTime_pos (opts : Opts) (c : Nat) : 0 < firedTime opts c := by
  rcases opts with ⟨oe, ot⟩
  cases ot with
  | none => simp [firedTime]
  | some t =>
      by_cases ht : t ≠ 0
      · simp only [firedTime]
        rw [if_pos ht]
        omega
      · simp only [firedTime]
        rw [if_neg ht]
        omega

theorem mapE_trace (m : Machine) (i : Nat) (f : EvtObj → EvtObj) :
    (m.mapE i f).trace = m.trace := by
  unfold Machine.mapE
  cases m.evts.get? i <;> rfl

/-- A pure, non-cancelling prefix of the priority list only extends the log
and hands control to the remaining handlers. -/
theorem runPrio_pure_init (recur : CallFn) (P : List HandlerF) :
    ∀ (Q : List HandlerF) (m : Machine) (inst : Inst) (i : Nat),
      pureL P → (∀ h ∈ P, hasCancel h.acts = false) →
      runPrio recur m (P ++ Q) inst i
        = runPrio recur { m with log := m.log ++ handlersLog inst i P } Q inst i := by
  induction P with
  | nil =>
      intro Q m inst i _ _
      simp [handlersLog]
  | cons h t ih =>
      intro Q m inst i hp hnc
      have hph : pureActs h.acts := hp h (List.mem_cons_self h t)
      have hpt : pureL t := fun x hx => hp x (List.mem_cons_of_mem h hx)
      have hnch : hasCancel h.acts = false := hnc h (List.mem_cons_self h t)
      have hnct : ∀ x ∈ t, hasCancel x.acts = false :=
        fun x hx => hnc x (List.mem_cons_of_mem h hx)
      have hr := runActs_pure recur h.acts m inst i false hph
      rw [List.cons_append]
      have hstep : runPrio recur m (h :: (t ++ Q)) inst i
          = runPrio recur { m with log := m.log ++ actsLog inst i h.acts }
              (t ++ Q) inst i := by
        simp only [runPrio]
        rw [hr]
        simp [hnch]
      rw [hstep, ih Q _ inst i hpt hnct]
      simp [handlersLog, List.append_assoc]

theorem get?_set_other {α : Type} (l : List α) {i j : Nat} (h : i ≠ j) (o : α) :
    (l.set i o).get? j = l.get? j := by
  rw [List.get?_eq_getElem?, List.get?_eq_getElem?, List.getElem?_set_ne h]

theorem ckeyOf_mk (evts : List EvtObj) (lg : List Entry)
    (tr : List (Nat × Inst)) (ns nh ck : Nat) (i : Nat) :
    ckeyOf (Machine.mk evts lg tr ns nh ck) i
      = (evts.get? i).bind (fun o => o.ckey) := rfl

theorem firedTime_override_pos (oe : Option Nat) (t c : Nat) (ht : t ≠ 0) :
    firedTime ⟨oe, some t⟩ c = t := by
  simp only [firedTime]
  rw [if_pos ht]

/-- A guard-passing fire of a source whose priority list ends in a relay to a
compound (all other handler bodies pure, none of the earlier priority
handlers cancelling) returns the source's firing record and traces exactly
two firings: the source's, then the compound's, whose record carries the
source record's `caller`, `evt`, `data` and `time`. -/
theorem callE_relay_dispatch (fuel : Nat) (M : Machine) (sid cid : Nat)
    (fkey caller data : JSVal) (opts : Opts) (soP soN : List HandlerF)
    (hh : Nat) (so co : EvtObj)
    (hgs : M.getE sid = some so)
    (hshape : so.priorityHandlers = soP ++ [⟨hh, [Act.relay cid]⟩])
    (hsoN : so.handlers = soN)
    (hgc : M.getE cid = some co) (hne : sid ≠ cid)
    (hpureSP : pureL soP) (hnoCancel : ∀ h ∈ soP, hasCancel h.acts = false)
    (hpureSN : pureL soN)
    (hcomp : co.isCompound = true)
    (hpureC : pureL co.priorityHandlers ∧ pureL co.handlers)
    (hcpend : co.pending = false) (hspend : so.pending = false)
    (hfk : validateKeyO so fkey = true) :
    (callE (fuel + 1) M sid fkey caller data opts).2
        = some (instOf sid caller data opts M.clock)
    ∧ (callE (fuel + 1) M sid fkey caller data opts).1.trace
        = M.trace ++ [(sid, instOf sid caller data opts M.clock),
            (cid, ⟨caller, (instOf sid caller data opts M.clock).evt, data,
                   (instOf sid caller data opts M.clock).time⟩)] := by
  have hslt : sid < M.evts.length := getE_lt hgs
  have hclt : cid < M.evts.length := getE_lt hgc
  have hguard : ¬ ((so.pending || !validateKeyO so fkey) = true) := by
    rw [hspend, hfk]
    simp
  rw [show callE (fuel + 1) = callBody (callE fuel) from rfl]
  unfold callBody
  rw [hgs]
  dsimp only
  rw [if_neg hguard]
  rw [hshape, hsoN]
  rw [runPrio_pure_init (callE fuel) soP [⟨hh, [Act.relay cid]⟩] _ _ _ hpureSP
    hnoCancel]
  simp only [runPrio, runActs, runAct]
  simp only [Bool.false_eq_true, if_false]
  rw [ckeyOf_mk]
  rw [get?_set_other _ hne]
  rw [show M.evts.get? cid = some co from hgc]
  dsimp only [Option.bind]
  have hgcGen : ∀ (x : EvtObj) (lg : List Entry) (tr : List (Nat × Inst))
      (ns nh ck : Nat),
      (Machine.mk (M.evts.set sid x) lg tr ns nh ck).getE cid = some co := by
    intro x lg tr ns nh ck
    show (M.evts.set sid x).get? cid = some co
    rw [get?_set_other _ hne]
    exact hgc
  have hvco : validateKeyO co (keyVal co.ckey) = true := by
    simp [validateKeyO, hcomp, validC_keyVal]
  rw [callE_eq_callBody fuel]
  rw [callBody_pure _ _ _ _ _ _ _ _ (hgcGen _ _ _ _ _ _) hcpend hvco hpureC]
  dsimp only
  rw [runNorm_pure _ soN _ _ _ hpureSN]
  rw [mapE_trace]
  dsimp only
  have htpos : (instOf sid caller data opts M.clock).time ≠ 0 := by
    have h1 := firedTime_pos opts M.clock
    simp only [instOf]
    omega
  refine ⟨trivial, ?_⟩
  have hinstC : instOf cid (instOf sid caller data opts M.clock).caller
      (instOf sid caller data opts M.clock).data
      { overrideEvt := some (instOf sid caller data opts M.clock).evt,
        overrideTime := some (instOf sid caller data opts M.clock).time }
      (clockAfter opts M.clock)
    = ⟨caller, (instOf sid caller data opts M.clock).evt, data,
       (instOf sid caller data opts M.clock).time⟩ := by
    show (⟨(instOf sid caller data opts M.clock).caller,
           (some (instOf sid caller data opts M.clock).evt).getD cid,
           (instOf sid caller data opts M.clock).data,
           firedTime ⟨some (instOf sid caller data opts M.clock).evt,
                      some (instOf sid caller data opts M.clock).time⟩
             (clockAfter opts M.clock)⟩ : Inst) = _
    rw [firedTime_override_pos _ _ _ htpos]
    rfl
  rw [hinstC, List.append_assoc]
  rfl

/-- Source with a cancelling priority handler installed BEFORE the bind. -/
def cxEvt : EvtObj :=
  ⟨"evt", [⟨1, [Act.cancel]⟩], [], none, false, false, none, [], []⟩

/-- Machine for the C4 counterexample. -/
def cxBase : Machine := ⟨[cxEvt, sCmp], [], [], 0, 100, 0⟩

/-- `cxBase` after a successful `compound.bind(evt)`. -/
def cxBound : Machine := (bindC cxBase 1 (JSVal.evtRef 0) JSVal.null JSVal.null).1

/-- C4 counterexample: the bind succeeds, the subsequent fire of the source
passes the entry guard (it returns a firing record), yet the compound fires
ZERO times — the cancelling priority handler installed before the bind stops
the dispatch before the relay runs.  The claim's "every fire of S that passes
S's entry guard causes exactly one firing of C" is false as stated. -/
theorem c4_counterexample :
    (bindC cxBase 1 (JSVal.evtRef 0) JSVal.null JSVal.null).2 = some 1
    ∧ (callE 2 cxBound 0 JSVal.null JSVal.null JSVal.null {}).2.isSome = true
    ∧ ((callE 2 cxBound 0 JSVal.null JSVal.null JSVal.null {}).1.trace.countP
        (fun e => decide (e.1 = 1))) = 0 := by
  exact ⟨by decide, by decide, by decide⟩

/-- C4 (amended): after a successful `C.bind(S)` of a previously unbound
source S, a fire of S that passes S's entry guard causes exactly one firing
of C — provided C is not itself mid-fire, no priority handler of S installed
before the bind cancels (cancellation would skip the relay, see the
counterexample), and the involved handler bodies do not themselves fire
events — and C's firing record has `evt` equal to S's record's `evt` field
(S itself when S is fired without an override), `time` equal to S's record's
`time`, and `caller` and `data` equal to those of S's record. -/
theorem c4_relay_record (fuel : Nat) (m : Machine) (cid sid : Nat)
    (key ek fkey caller data : JSVal) (opts : Opts) (co so : EvtObj)
    (hc : m.getE cid = some co) (hs : m.getE sid = some so)
    (hkey : isEvtRef key = false) (hne : sid ≠ cid)
    (hv1 : validC co.ckey key = true) (hv2 : validateKeyO so ek = true)
    (hnb : sid ∉ co.cevts)
    (hfresh : (⟨m.nextHid, [Act.relay cid]⟩ : HandlerF) ∉ so.priorityHandlers)
    (hpureSP : pureL so.priorityHandlers)
    (hnoCancel : ∀ h ∈ so.priorityHandlers, hasCancel h.acts = false)
    (hpureSN : pureL so.handlers)
    (hcomp : co.isCompound = true)
    (hpureC : pureL co.priorityHandlers ∧ pureL co.handlers)
    (hcpend : co.pending = false) (hspend : so.pending = false)
    (hfk : validateKeyO so fkey = true) :
    (bindC m cid key (JSVal.evtRef sid) ek).2 = some cid
    ∧ (callE (fuel + 1) (bindC m cid key (JSVal.evtRef sid) ek).1 sid fkey
        caller data opts).2 = some (instOf sid caller data opts m.clock)
    ∧ (callE (fuel + 1) (bindC m cid key (JSVal.evtRef sid) ek).1 sid fkey
        caller data opts).1.trace
      = m.trace ++ [(sid, instOf sid caller data opts m.clock),
          (cid, ⟨caller, (instOf sid caller data opts m.clock).evt, data,
                 (instOf sid caller data opts m.clock).time⟩)]
    ∧ ((callE (fuel + 1) (bindC m cid key (JSVal.evtRef sid) ek).1 sid fkey
        caller data opts).1.trace.countP (fun e => decide (e.1 = cid)))
      = m.trace.countP (fun e => decide (e.1 = cid)) + 1 := by
  have hns : ¬ (co.ckey = none ∧ isEvtRef key = true) := by
    rintro ⟨-, habs⟩
    rw [hkey] at habs
    cases habs
  have hslt : sid < m.evts.length := getE_lt hs
  have hclt : cid < m.evts.length := getE_lt hc
  rw [bindC_success m cid sid key ek co so hc hs hns hne ⟨hv1, hv2⟩ hnb hfresh]
  have hgs1 : ((({ m with nextHid := m.nextHid + 1 } : Machine).setE sid
      ({ so with priorityHandlers :=
          so.priorityHandlers ++ [⟨m.nextHid, [Act.relay cid]⟩] })).setE cid
      ({ co with
          cevts := co.cevts ++ [sid],
          cdata := co.cdata ++ [⟨ek, ⟨m.nextHid, [Act.relay cid]⟩⟩] })).getE sid
      = some ({ so with priorityHandlers :=
          so.priorityHandlers ++ [⟨m.nextHid, [Act.relay cid]⟩] }) := by
    rw [getE_setE_ne _ (Ne.symm hne)]
    exact getE_setE_self _ hslt
  have hgc1 : ((({ m with nextHid := m.nextHid + 1 } : Machine).setE sid
      ({ so with priorityHandlers :=
          so.priorityHandlers ++ [⟨m.nextHid, [Act.relay cid]⟩] })).setE cid
      ({ co with
          cevts := co.cevts ++ [sid],
          cdata := co.cdata ++ [⟨ek, ⟨m.nextHid, [Act.relay cid]⟩⟩] })).getE cid
      = some ({ co with
          cevts := co.cevts ++ [sid],
          cdata := co.cdata ++ [⟨ek, ⟨m.nextHid, [Act.relay cid]⟩⟩] }) := by
    apply getE_setE_self
    rw [setE_evts_length]
    exact hclt
  have hd := callE_relay_dispatch fuel _ sid cid fkey caller data opts
    so.priorityHandlers so.handlers m.nextHid _ _ hgs1 rfl rfl hgc1 hne
    hpureSP hnoCancel hpureSN hcomp hpureC hcpend hspend hfk
  refine ⟨rfl, hd.1, hd.2, ?_⟩
  rw [hd.2]
  dsimp only [Machine.setE]
  simp [List.countP_append, List.countP_cons, hne]

theorem c4_witness :
    bBase.getE 1 = some sCmp ∧ bBase.getE 0 = some sEvt
      ∧ (bindC bBase 1 JSVal.null (JSVal.evtRef 0) JSVal.null).2 = some 1
      ∧ (callE 1 (bindC bBase 1 JSVal.null (JSVal.evtRef 0) JSVal.null).1 0
          JSVal.null JSVal.null JSVal.null {}).2
        = some (instOf 0 JSVal.null JSVal.null {} bBase.clock)
      ∧ ((callE 1 (bindC bBase 1 JSVal.null (JSVal.evtRef 0) JSVal.null).1 0
          JSVal.null JSVal.null JSVal.null {}).1.trace.countP
          (fun e => decide (e.1 = 1)))
        = bBase.trace.countP (fun e => decide (e.1 = 1)) + 1 :=
  have h := c4_relay_record 0 bBase 1 0 JSVal.null JSVal.null JSVal.null
    JSVal.null JSVal.null {} sCmp sEvt rfl rfl (by decide) (by decide)
    (by decide) (by decide) (by decide) (by decide) (by decide) (by decide)
    (by decide) (by decide) (by decide) (by decide) (by decide) (by decide)
  ⟨rfl, rfl, h.1, h.2.1, h.2.2.2⟩

/-! ## The documented relay-ordering and cancellation-scoping scenarios (C5) -/

/-- Docs relay-ordering scenario, built with the modelled operations in the
documented order: source gets priority1 and handler1, then the bind installs
the relay, then priority2 and handler2 are added to the source and
compoundPriority1/compoundHandler1 to the compound. -/
def docsM : Machine :=
  (((((bBase.mapE 0
    (fun o => addPriorityHandler o JSVal.null ⟨1, [Act.log 1]⟩)).mapE 0
    (fun o => addHandler o ⟨5, [Act.log 5]⟩)
    |> (fun mm => (bindC mm 1 (JSVal.evtRef 0) JSVal.null JSVal.null).1)).mapE 0
    (fun o => addPriorityHandler o JSVal.null ⟨4, [Act.log 4]⟩)).mapE 0
    (fun o => addHandler o ⟨6, [Act.log 6]⟩)).mapE 1
    (fun o => addPriorityHandler o JSVal.null ⟨2, [Act.log 2]⟩)).mapE 1
    (fun o => addHandler o ⟨3, [Act.log 3]⟩)

/-- Docs cancellation-scoping scenario: source normal handlers log 1 and 2;
compound normal handlers log 3, cancel, log 4; then the bind installs the
relay. -/
def cancM : Machine :=
  (bindC ((bBase.mapE 0
    (fun o => addHandlers o [⟨1, [Act.log 1]⟩, ⟨2, [Act.log 2]⟩])).mapE 1
    (fun o => addHandlers o [⟨3, [Act.log 3]⟩, ⟨4, [Act.cancel]⟩, ⟨5, [Act.log 4]⟩]))
    1 (JSVal.evtRef 0) JSVal.null JSVal.null).1

/-- C5: the compound's whole dispatch runs synchronously at the relay's
position in the source's priority list — the documented scenario produces
exactly priority1, compoundPriority1, compoundHandler1, priority2, handler1,
handler2 — and a compound handler's `cancel()` during an indirect fire cuts
short only the compound's dispatch: in the documented cancellation scenario
the compound's later handler is skipped while both of the source's normal
handlers still run (log: compound1, evt1, evt2), and in general the relay
action returns the source's cancellation flag unchanged. -/
theorem c5_relay_order_and_cancel_scope :
    (callE 2 docsM 0 JSVal.null JSVal.null JSVal.null {}).1.log
        = [Entry.msg 1, Entry.msg 2, Entry.msg 3, Entry.msg 4, Entry.msg 5,
           Entry.msg 6]
    ∧ (callE 2 cancM 0 JSVal.null JSVal.null JSVal.null {}).1.log
        = [Entry.msg 3, Entry.msg 1, Entry.msg 2]
    ∧ ∀ (recur : CallFn) (m : Machine) (inst : Inst) (i : Nat) (c : Bool)
        (cid : Nat), (runActs recur m [Act.relay cid] inst i c).2 = c := by
  refine ⟨by decide, by decide, ?_⟩
  intro recur m inst i c cid
  rfl

end Evts
